import Mathlib

/-!
Verification of the website-builder orchestrator in src/CursorPro/index.js.

Strings are modelled as lists of unicode scalar values (Str).  The JS string
primitives the source uses (trim, split, startsWith, includes, length) and the
Node path library functions it calls (path.normalize, path.join, path.isAbsolute,
path.dirname, POSIX variants) are translated below; the filesystem is an
association list from full path strings to nodes, and the two effectful
collaborators (the subprocess runner behind execSync and the hosted model) enter
as explicit function parameters, so that every theorem quantifies over their
behaviour.
-/

deriving instance DecidableEq for Except

namespace CursorPro

abbrev Str := List Char

/-- The single-quote character, used in error message literals. -/
def sq : Char := Char.ofNat 39

/-- The whitespace set of the JS spec (String.prototype.trim, \s):
tab, LF, VT, FF, CR, space, NBSP, Ogham space, the U+2000 range, LS, PS,
NNBSP, MMSP, ideographic space and the BOM. -/
def isJsWs (c : Char) : Bool :=
  c = ' ' || c = Char.ofNat 9 || c = Char.ofNat 10 || c = Char.ofNat 11 ||
  c = Char.ofNat 12 || c = Char.ofNat 13 || c = Char.ofNat 160 ||
  c = Char.ofNat 5760 || (8192 ≤ c.toNat && c.toNat ≤ 8202) ||
  c = Char.ofNat 8232 || c = Char.ofNat 8233 || c = Char.ofNat 8239 ||
  c = Char.ofNat 8287 || c = Char.ofNat 12288 || c = Char.ofNat 65279

/-- JS String.prototype.trim: strip JS whitespace from both ends. -/
def jsTrim (l : Str) : Str :=
  ((l.dropWhile isJsWs).reverse.dropWhile isJsWs).reverse

/-- JS String.prototype.length: UTF-16 code units (astral scalars count 2). -/
def jsLen (l : Str) : Nat :=
  (l.map (fun c => if 65536 ≤ c.toNat then 2 else 1)).sum

/-- Bytes of the UTF-8 encoding fs.writeFileSync produces for the content. -/
def utf8Len (l : Str) : Nat :=
  (l.map Char.utf8Size).sum

/-- Whether the first list is an initial run of the second
(JS String.prototype.startsWith). -/
def leadsOf {α : Type} [DecidableEq α] : List α → List α → Bool
  | [], _ => true
  | _ :: _, [] => false
  | p :: ps, x :: xs => p = x && leadsOf ps xs

/-- Whether pat occurs contiguously inside l (JS String.prototype.includes). -/
def hasRun (pat : Str) : Str → Bool
  | [] => leadsOf pat []
  | x :: xs => leadsOf pat (x :: xs) || hasRun pat xs

/-- Split a list at every occurrence of c (the segments of a path at the
separator); always returns at least one (possibly empty) piece. -/
def splitChar (c : Char) : Str → List Str
  | [] => [[]]
  | x :: xs =>
    let r := splitChar c xs
    if x = c then [] :: r else (x :: r.headI) :: r.tail

/-- Join path segments with the POSIX separator. -/
def joinSegs : List Str → Str
  | [] => []
  | [x] => x
  | x :: y :: rest => x ++ '/' :: joinSegs (y :: rest)

/-- path.posix.isAbsolute: a nonempty string starting with the separator. -/
def isAbs (p : Str) : Bool :=
  match p with
  | [] => false
  | c :: _ => c = '/'

/-- A segment that names a real path component: not empty and not the
current-directory dot. -/
def realSeg (s : Str) : Bool :=
  !(s = [] || s = ['.'])

/-- One step of the segment-resolution loop of Node path.posix.normalize
(normalizeString): the accumulator holds the kept segments in reverse;
dot-dot pops the last kept segment, or is itself kept (relative paths) or
dropped (absolute paths) when there is nothing to pop. -/
def normStep (allowAboveRoot : Bool) (acc : List Str) (seg : Str) : List Str :=
  if seg = [] || seg = ['.'] then acc
  else if seg = ['.', '.'] then
    match acc with
    | last :: acc2 =>
      if last = ['.', '.'] then
        if allowAboveRoot then seg :: last :: acc2 else last :: acc2
      else acc2
    | [] => if allowAboveRoot then [seg] else []
  else seg :: acc

def normFold (allowAboveRoot : Bool) (acc : List Str) (l : List Str) : List Str :=
  l.foldl (normStep allowAboveRoot) acc

/-- Node path.posix.normalize: resolve dot and dot-dot segments, collapse
repeated separators, keep a trailing separator, return the dot path for an
empty result. -/
def normalizePath (p : Str) : Str :=
  match p with
  | [] => ['.']
  | _ =>
    let abs := isAbs p
    let trail := p.getLast? = some '/'
    let segs := (normFold (!abs) [] (splitChar '/' p)).reverse
    let body := joinSegs segs
    if body = [] then
      if abs then ['/'] else if trail then ['.', '/'] else ['.']
    else
      let body2 := if trail then body ++ ['/'] else body
      if abs then '/' :: body2 else body2

/-- Node path.posix.join for two parts: empty parts are skipped, the rest are
separated by the separator and the result is normalized. -/
def joinPath (a b : Str) : Str :=
  let joined := if a = [] then b else if b = [] then a else a ++ '/' :: b
  if joined = [] then ['.'] else normalizePath joined

/-- Node path.posix.dirname: skip trailing separators, cut before the last
separator at index one or later, with the root and dot fallbacks. -/
def dirnameP (p : Str) : Str :=
  match p with
  | [] => ['.']
  | c0 :: _ =>
    let hasRoot := c0 = '/'
    let core := (p.reverse.dropWhile (fun c => c = '/')).reverse
    let slashIdxs :=
      (core.enum.filter (fun ic => 1 ≤ ic.1 && ic.2 = '/')).map (fun ic => ic.1)
    match slashIdxs.getLast? with
    | none => if hasRoot then ['/'] else ['.']
    | some e => if hasRoot && e = 1 then ['/', '/'] else core.take e

/-- The real components of a path string, dots and empty pieces dropped: the
semantic location named by an absolute dot-dot-free path. -/
def cleanSegs (p : Str) : List Str :=
  (splitChar '/' p).filter realSeg

/-- Containment of one absolute dot-dot-free path under another: same
absoluteness and the base components lead the path components. -/
def isUnder (base q : Str) : Bool :=
  isAbs q && leadsOf (cleanSegs base) (cleanSegs q)

/-- POSIX resolution of a path named by a subprocess against its working
directory: an absolute argument ignores the working directory. -/
def resolveAgainst (cwd p : Str) : Str :=
  if isAbs p then normalizePath p else joinPath cwd p

/-- sanitizePath (index.js line 114): normalize, then reject when the
normalized string contains the two-dot run anywhere or is absolute; the check
is the JS substring test includes, not a per-segment test. -/
def sanitizePath (filePath : Str) : Except Str Str :=
  let normalizedPath := normalizePath filePath
  if hasRun ['.', '.'] normalizedPath || isAbs normalizedPath then
    .error ("Invalid file path: directory traversal not allowed".data)
  else
    .ok normalizedPath

/-- The command allowlist of isValidCommand (index.js line 133). -/
def allowedCommands : List Str :=
  ["mkdir".data, "touch".data, "echo".data, "ls".data, "cat".data, "pwd".data,
   "cp".data, "mv".data, "rm".data, "find".data, "grep".data, "head".data,
   "tail".data, "wc".data, "sort".data, "uniq".data]

/-- The command denylist of isValidCommand (index.js line 155). -/
def blockedCommands : List Str :=
  ["sudo".data, "su".data, "chmod".data, "chown".data, "passwd".data,
   "useradd".data, "userdel".data, "systemctl".data, "service".data,
   "kill".data, "killall".data, "reboot".data, "shutdown".data, "curl".data,
   "wget".data, "ssh".data, "scp".data, "rsync".data, "dd".data,
   "format".data, "fdisk".data, "mount".data, "umount".data, "crontab".data,
   "at".data, "nohup".data, "screen".data, "tmux".data]

/-- isValidCommand (index.js line 131): the command name is the first piece of
the trimmed command split at single spaces; a denylisted name throws, otherwise
the verdict is membership in the allowlist or an echo-prefixed name. -/
def isValidCommandE (command : Str) : Except Str Bool :=
  let commandName := (jsTrim command).takeWhile (fun c => c ≠ ' ')
  if commandName ∈ blockedCommands then
    .error (("Command ".data ++ [sq]) ++ commandName ++
      ([sq] ++ " is not allowed for security reasons".data))
  else
    .ok (commandName ∈ allowedCommands || leadsOf ("echo".data) commandName)

/-- The first whitespace-delimited token of a command string: what the spec
means by the leading token of a command. -/
def wsFirstTok (cmd : Str) : Str :=
  (jsTrim cmd).takeWhile (fun c => !isJsWs c)

/-- A node of the modelled filesystem. -/
inductive FsNode
  | file (content : Str)
  | dir
deriving DecidableEq

/-- The filesystem: an association list from full path strings to nodes;
the most recent binding for a key wins and fsSet drops older bindings. -/
abbrev FS := List (Str × FsNode)

def fsLookup (fs : FS) (p : Str) : Option FsNode :=
  match fs with
  | [] => none
  | (q, n) :: rest => if p = q then some n else fsLookup rest p

def fsSet (fs : FS) (p : Str) (n : FsNode) : FS :=
  (p, n) :: fs.filter (fun kv => kv.1 ≠ p)

/-- fs.existsSync. -/
def existsSync (fs : FS) (p : Str) : Bool :=
  (fsLookup fs p).isSome

/-- The directory paths fs.mkdirSync with the recursive flag walks for a
target: the joined nonempty prefixes of its separator-split segments, the
target itself last. -/
def ancestorChain (p : Str) : List Str :=
  let segs := splitChar '/' p
  ((List.range segs.length).map (fun i => joinSegs (segs.take (i + 1)))).filter
    (fun q => q ≠ [])

def mkdirGo : FS → List Str → FS × Except Str Unit
  | fs, [] => (fs, .ok ())
  | fs, q :: rest =>
    match fsLookup fs q with
    | some (.file _) => (fs, .error ("ENOTDIR: not a directory, mkdir ".data ++ q))
    | some .dir => mkdirGo fs rest
    | none => mkdirGo (fsSet fs q .dir) rest

/-- fs.mkdirSync with the recursive flag: create every missing directory on
the chain, failing (with the filesystem as mutated so far) when a chain
element already exists as a regular file. -/
def mkdirRecE (fs : FS) (p : Str) : FS × Except Str Unit :=
  mkdirGo fs (ancestorChain p)

/-- fs.writeFileSync: overwrite the file at the path, failing on a directory
target or a regular-file parent. -/
def writeFileSyncE (fs : FS) (p : Str) (content : Str) : FS × Except Str Unit :=
  match fsLookup fs p with
  | some .dir => (fs, .error ("EISDIR: illegal operation on a directory, open ".data ++ p))
  | _ =>
    match fsLookup fs (dirnameP p) with
    | some (.file _) => (fs, .error ("ENOTDIR: not a directory, open ".data ++ p))
    | _ => (fsSet fs p (.file content), .ok ())

/-- The ambient process state of index.js: the websites root directory
(WEBSITES_DIR), the process working directory, and the subprocess runner
behind execSync as an uninterpreted function from working directory, command
string and filesystem to the mutated filesystem and captured output or error. -/
structure Env where
  websitesDir : Str
  processCwd : Str
  exec : Str → Str → FS → FS × Except Str Str

/-- getProjectPath (index.js line 127). -/
def getProjectPath (env : Env) (projectId : Str) : Str :=
  joinPath env.websitesDir projectId

/-- The argument object of one tool call after JSON parsing; a missing JS
property is none (undefined). -/
structure JsArgs where
  command : Option Str := none
  path : Option Str := none
  content : Option Str := none
deriving DecidableEq

/-- The shared path resolution of WriteFile, ReadFile and ListDirectory
(index.js lines 236-242, 279-285, 311-317): under an active project the
sanitized relative path is joined onto the project directory, otherwise the
sanitized path itself is used. -/
def toolFullPath (env : Env) (ctx : Option Str) (filePath : Str) : Except Str Str :=
  match ctx with
  | some pid =>
    match sanitizePath filePath with
    | .ok p => .ok (joinPath (getProjectPath env pid) p)
    | .error e => .error e
  | none => sanitizePath filePath

/-- The message of the TypeError the JS runtime throws when a tool body
dereferences a missing argument property (undefined). -/
def undefinedErr : Str :=
  "TypeError: argument is undefined".data

structure ExecResult where
  success : Bool
  output : Option Str := none
  error : Option Str := none
  command : Option Str := none
deriving DecidableEq

structure WriteResult where
  success : Bool
  message : Option Str := none
  path : Option Str := none
  fullPath : Option Str := none
  size : Option Nat := none
  error : Option Str := none
deriving DecidableEq

structure ReadResult where
  success : Bool
  content : Option Str := none
  path : Option Str := none
  size : Option Nat := none
  error : Option Str := none
deriving DecidableEq

structure DirEntry where
  name : Str
  type : Str
  path : Str
deriving DecidableEq

structure ListResult where
  success : Bool
  files : Option (List DirEntry) := none
  path : Option Str := none
  count : Option Nat := none
  error : Option Str := none
deriving DecidableEq

/-- ExecuteCommand (index.js line 200): validate the command, run it with the
working directory set to the active project (or the process directory), and
catch every throw into a failure result; the result echoes the command. -/
def ExecuteCommand (env : Env) (ctx : Option Str) (fs : FS) (args : JsArgs) :
    FS × ExecResult :=
  match args.command with
  | none => (fs, { success := false, error := some undefinedErr })
  | some command =>
    match isValidCommandE command with
    | .error e => (fs, { success := false, error := some e, command := some command })
    | .ok false =>
      (fs, { success := false,
             error := some ("Command not allowed: ".data ++
               command.takeWhile (fun c => c ≠ ' ')),
             command := some command })
    | .ok true =>
      let cwd := match ctx with
        | some pid => getProjectPath env pid
        | none => env.processCwd
      match env.exec cwd command fs with
      | (fs2, .ok output) =>
        (fs2, { success := true, output := some (jsTrim output),
                command := some command })
      | (fs2, .error e) =>
        (fs2, { success := false, error := some e, command := some command })

/-- WriteFile (index.js line 233): resolve the target under the active
project, reject content longer than 1 MiB of JS string length, create the
missing parent chain, overwrite the file; every throw is caught into a
failure result that keeps the filesystem as mutated so far. -/
def WriteFile (env : Env) (ctx : Option Str) (fs : FS) (args : JsArgs) :
    FS × WriteResult :=
  match args.path with
  | none => (fs, { success := false, error := some undefinedErr })
  | some filePath =>
    match toolFullPath env ctx filePath with
    | .error e => (fs, { success := false, error := some e, path := some filePath })
    | .ok fullPath =>
      match args.content with
      | none => (fs, { success := false, error := some undefinedErr,
                       path := some filePath })
      | some content =>
        if 1024 * 1024 < jsLen content then
          (fs, { success := false,
                 error := some ("File content too large (max 1MB)".data),
                 path := some filePath })
        else
          let dir := dirnameP fullPath
          let step := if existsSync fs dir then (fs, Except.ok ()) else mkdirRecE fs dir
          match step with
          | (fs1, .error e) =>
            (fs1, { success := false, error := some e, path := some filePath })
          | (fs1, .ok _) =>
            match writeFileSyncE fs1 fullPath content with
            | (fs2, .error e) =>
              (fs2, { success := false, error := some e, path := some filePath })
            | (fs2, .ok _) =>
              (fs2, { success := true,
                      message := some ("Successfully written to ".data ++ filePath),
                      path := some filePath, fullPath := some fullPath,
                      size := some (jsLen content) })

/-- ReadFile (index.js line 277): resolve the path under the active project,
fail when absent, return the content and its JS length. -/
def ReadFile (env : Env) (ctx : Option Str) (fs : FS) (args : JsArgs) : ReadResult :=
  match args.path with
  | none => { success := false, error := some undefinedErr }
  | some filePath =>
    match toolFullPath env ctx filePath with
    | .error e => { success := false, error := some e, path := some filePath }
    | .ok fullPath =>
      if existsSync fs fullPath then
        match fsLookup fs fullPath with
        | some (.file content) =>
          { success := true, content := some content, path := some filePath,
            size := some (jsLen content) }
        | _ =>
          { success := false,
            error := some ("EISDIR: illegal operation on a directory, read".data),
            path := some filePath }
      else
        { success := false,
          error := some ("File does not exist: ".data ++ filePath),
          path := some filePath }

/-- The child entries fs.readdirSync returns under a directory: keys one
separator-free component below it. -/
def readdirEntries (fs : FS) (dirP : Str) : List (Str × Bool) :=
  fs.filterMap (fun kv =>
    if leadsOf (dirP ++ ['/']) kv.1 then
      let rest := kv.1.drop (dirP.length + 1)
      if rest ≠ [] && !(rest.contains '/') then
        some (rest, kv.2 = FsNode.dir)
      else none
    else none)

/-- ListDirectory (index.js line 309): the path defaults to the dot
directory, must exist and be a directory; entries carry name, kind and the
path joined onto the requested relative path. -/
def ListDirectory (env : Env) (ctx : Option Str) (fs : FS) (args : JsArgs) :
    ListResult :=
  let dirPath := args.path.getD (".".data)
  match toolFullPath env ctx dirPath with
  | .error e => { success := false, error := some e, path := some dirPath }
  | .ok fullPath =>
    if existsSync fs fullPath then
      match fsLookup fs fullPath with
      | some .dir =>
        let files := (readdirEntries fs fullPath).map (fun e =>
          { name := e.1, type := if e.2 then "directory".data else "file".data,
            path := joinPath dirPath e.1 : DirEntry })
        { success := true, files := some files, path := some dirPath,
          count := some files.length }
      | _ =>
        { success := false,
          error := some ("Path is not a directory: ".data ++ dirPath),
          path := some dirPath }
    else
      { success := false,
        error := some ("Directory does not exist: ".data ++ dirPath),
        path := some dirPath }

/-- The outcome of one result object in the tool-call loop: one of the four
typed results, or the plain failure object the loop builds itself for an
unknown tool name and for a caught per-iteration throw (always success
false with an error message). -/
inductive ToolResult
  | exec (r : ExecResult)
  | write (r : WriteResult)
  | read (r : ReadResult)
  | list (r : ListResult)
  | plain (error : Str)
deriving DecidableEq

def ToolResult.success : ToolResult → Bool
  | .exec r => r.success
  | .write r => r.success
  | .read r => r.success
  | .list r => r.success
  | .plain _ => false

def ToolResult.errMsg : ToolResult → Option Str
  | .exec r => r.error
  | .write r => r.error
  | .read r => r.error
  | .list r => r.error
  | .plain e => some e

/-- One element of executionResults: the tool name, the parsed arguments
(none when JSON parsing threw or for the extra entry a failed follow-up
call records), and the result object. -/
structure ExecEntry where
  tool : Str
  args : Option JsArgs := none
  result : ToolResult
deriving DecidableEq

/-- One requested tool call: the model-chosen function name together with the
outcome of JSON.parse on its argument string (the parse either throws with a
message or yields an argument object; the parse outcome is embedded
directly). -/
structure ToolCallJs where
  name : Str
  argsJSON : Except Str JsArgs
deriving DecidableEq

/-- The message of choices[0] of the model response: natural-language content
(possibly null) and the optional batch of requested tool calls. -/
structure ModelMessage where
  content : Option Str := none
  toolCalls : Option (List ToolCallJs) := none
deriving DecidableEq

/-- The per-request nondeterminism of the orchestrator: the generated project
id (generateProjectId), the outcome of the initial model call, and the
outcome of the follow-up model call made after the i-th executed loop
iteration (its reply is discarded; only a throw is observable). -/
structure BuildOracle where
  projectId : Str
  modelResponse : Except Str ModelMessage
  followUp : Nat → Except Str Unit

/-- A JSON value arriving as req.body.userPrompt: a string or anything else. -/
inductive JsVal
  | str (v : Str)
  | other
deriving DecidableEq

structure BuildRequest where
  userPrompt : Option JsVal := none
deriving DecidableEq

structure BuildStats where
  toolCallsExecuted : Nat
  hasIndexFile : Option Bool := none
deriving DecidableEq

/-- The JSON body and status the build endpoint responds with (the elapsed
time and timestamp fields are real-time observations and are not modelled). -/
structure BuildHttp where
  status : Nat
  success : Bool
  error : Option Str := none
  message : Option Str := none
  projectId : Option Str := none
  previewUrl : Option Str := none
  executionResults : List ExecEntry := []
  stats : Option BuildStats := none
deriving DecidableEq

/-- The switch of the tool-call loop (index.js line 548): dispatch on the
tool name, defaulting to the unknown-tool failure object. -/
def dispatchTool (env : Env) (pid : Str) (fs : FS) (name : Str) (args : JsArgs) :
    FS × ToolResult :=
  if name = "ExecuteCommand".data then
    let r := ExecuteCommand env (some pid) fs args
    (r.1, .exec r.2)
  else if name = "WriteFile".data then
    let r := WriteFile env (some pid) fs args
    (r.1, .write r.2)
  else if name = "ReadFile".data then
    (fs, .read (ReadFile env (some pid) fs args))
  else if name = "ListDirectory".data then
    (fs, .list (ListDirectory env (some pid) fs args))
  else
    (fs, .plain ("Unknown tool: ".data ++ name))

/-- One iteration of the tool-call loop (index.js lines 541-595): a JSON
parse failure is caught and recorded with null arguments and the tool is not
run; otherwise the tool runs, its entry is pushed, and a throwing follow-up
model call is caught and recorded as one extra null-argument failure entry.
No outcome stops the iteration from returning normally. -/
def runOneCall (env : Env) (pid : Str) (fs : FS) (fu : Except Str Unit)
    (tc : ToolCallJs) : FS × List ExecEntry :=
  match tc.argsJSON with
  | .error e => (fs, [{ tool := tc.name, args := none, result := .plain e }])
  | .ok args =>
    let step := dispatchTool env pid fs tc.name args
    let entry : ExecEntry := { tool := tc.name, args := some args, result := step.2 }
    match fu with
    | .ok _ => (step.1, [entry])
    | .error e =>
      (step.1, [entry, { tool := tc.name, args := none, result := .plain e }])

/-- The whole tool-call loop, threading the filesystem and the follow-up
index through the batch in order. -/
def runCalls (env : Env) (o : BuildOracle) : FS → Nat → List ToolCallJs →
    FS × List ExecEntry
  | fs, _, [] => (fs, [])
  | fs, i, tc :: rest =>
    let one := runOneCall env o.projectId fs (o.followUp i) tc
    let more := runCalls env o one.1 (i + 1) rest
    (more.1, one.2 ++ more.2)

/-- The build endpoint POST api-build (index.js line 484): validate the
prompt, create the fresh project directory, query the model once, execute the
requested batch, and answer with the aggregate; a throw before the JSON
response (directory creation, model call) is caught into a 500 with the
filesystem as mutated so far.  The preview URL is derived exactly from the
existence of index.html at the project root after the batch. -/
def buildEndpoint (env : Env) (o : BuildOracle) (fs : FS) (req : BuildRequest) :
    BuildHttp × FS :=
  match req.userPrompt with
  | none =>
    ({ status := 400, success := false,
       error := some ("Valid userPrompt is required".data) }, fs)
  | some .other =>
    ({ status := 400, success := false,
       error := some ("Valid userPrompt is required".data) }, fs)
  | some (.str prompt) =>
    if prompt = [] then
      ({ status := 400, success := false,
         error := some ("Valid userPrompt is required".data) }, fs)
    else if 2000 < jsLen prompt then
      ({ status := 400, success := false,
         error := some ("Prompt too long (max 2000 characters)".data) }, fs)
    else
      let projectPath := getProjectPath env o.projectId
      let made := mkdirRecE fs projectPath
      match made with
      | (fs1, .error e) =>
        ({ status := 500, success := false, error := some e }, fs1)
      | (fs1, .ok _) =>
        match o.modelResponse with
        | .error e =>
          ({ status := 500, success := false, error := some e }, fs1)
        | .ok msg =>
          let tcs := msg.toolCalls.getD []
          let ran := runCalls env o fs1 0 tcs
          let indexPath := joinPath projectPath ("index.html".data)
          let hasIndexFile := existsSync ran.1 indexPath
          let previewUrl :=
            if hasIndexFile then
              some ("http://localhost:5000/".data ++ o.projectId ++ "/".data)
            else none
          ({ status := 200, success := true, message := msg.content,
             projectId := some o.projectId, previewUrl := previewUrl,
             executionResults := ran.2,
             stats := some { toolCallsExecuted := tcs.length,
                             hasIndexFile := some hasIndexFile } }, ran.1)

/-- A concrete process state for witnesses: an absolute websites root, a
working directory and a subprocess runner that succeeds with empty output and
leaves the filesystem unchanged. -/
def demoEnv : Env :=
  { websitesDir := "/app/websites".data, processCwd := "/app".data,
    exec := fun _ _ fs => (fs, .ok []) }

/-- A concrete starting filesystem for witnesses. -/
def demoFs : FS :=
  [("/app/websites".data, .dir), ("/app".data, .dir)]

/-- A concrete per-request oracle for witnesses: fixed project id, a
successful model call answering with the given batch, follow-ups succeed. -/
def demoOracle (tcs : Option (List ToolCallJs)) : BuildOracle :=
  { projectId := "w1".data,
    modelResponse := .ok { content := none, toolCalls := tcs },
    followUp := fun _ => .ok () }

/-- A tool call whose argument string fails JSON parsing. -/
def demoParseFail : ToolCallJs :=
  { name := "WriteFile".data, argsJSON := .error ("Unexpected token".data) }

/-- A tool call requesting a denylisted command. -/
def demoBlockedExec : ToolCallJs :=
  { name := "ExecuteCommand".data, argsJSON := .ok { command := some ("sudo x".data) } }

/-- A tool call naming a tool outside the catalogue. -/
def demoUnknown : ToolCallJs :=
  { name := "Nuke".data, argsJSON := .ok {} }

/-! ### Lemmas about the string and path primitives -/

theorem splitChar_ne_nil (c : Char) (l : Str) : splitChar c l ≠ [] := by
  cases l with
  | nil => simp [splitChar]
  | cons x xs => simp only [splitChar]; split <;> simp

theorem headI_splitChar (c : Char) (l : Str) :
    (splitChar c l).headI = l.takeWhile (fun x => x ≠ c) := by
  induction l with
  | nil => rfl
  | cons x xs ih =>
    simp only [splitChar]
    by_cases h : x = c
    · subst h; simp
    · simp [h, ih]

theorem splitChar_append (c : Char) (a b : Str) :
    splitChar c (a ++ c :: b) = splitChar c a ++ splitChar c b := by
  induction a with
  | nil => simp [splitChar]
  | cons x xs ih =>
    simp only [List.cons_append, splitChar]
    by_cases h : x = c
    · simp [h, ih]
    · obtain ⟨s, ss, hs⟩ : ∃ s ss, splitChar c xs = s :: ss := by
        cases hx : splitChar c xs with
        | nil => exact absurd hx (splitChar_ne_nil c xs)
        | cons s ss => exact ⟨s, ss, rfl⟩
      rw [if_neg h, if_neg h]
      simp only [List.append_eq]
      rw [ih, hs]
      simp

theorem splitChar_of_not_mem {c : Char} {l : Str} (h : c ∉ l) :
    splitChar c l = [l] := by
  induction l with
  | nil => rfl
  | cons x xs ih =>
    have hx : x ≠ c := fun e => h (by simp [e])
    have hxs : c ∉ xs := fun e => h (List.mem_cons_of_mem _ e)
    simp [splitChar, hx, ih hxs]

theorem leadsOf_takeWhile {α : Type} [DecidableEq α] (p : α → Bool) (l : List α) :
    leadsOf (l.takeWhile p) l = true := by
  induction l with
  | nil => rfl
  | cons x xs ih =>
    by_cases h : p x
    · simp [List.takeWhile_cons, h, leadsOf, ih]
    · simp [List.takeWhile_cons, h, leadsOf]

theorem leadsOf_append_self {α : Type} [DecidableEq α] (a b : List α) :
    leadsOf a (a ++ b) = true := by
  induction a with
  | nil => cases b <;> rfl
  | cons x xs ih => simp [leadsOf, ih]

theorem leadsOf_iff {α : Type} [DecidableEq α] (a l : List α) :
    leadsOf a l = true ↔ ∃ t, l = a ++ t := by
  induction a generalizing l with
  | nil => simp [leadsOf]
  | cons x xs ih =>
    cases l with
    | nil => simp [leadsOf]
    | cons y ys =>
      simp only [leadsOf, Bool.and_eq_true, decide_eq_true_eq, ih]
      constructor
      · rintro ⟨rfl, t, rfl⟩; exact ⟨t, rfl⟩
      · rintro ⟨t, ht⟩
        injection ht with h1 h2
        exact ⟨h1.symm, t, h2⟩

theorem hasRun_of_mem_splitChar {c : Char} {s l : Str}
    (h : s ∈ splitChar c l) : hasRun s l = true := by
  induction l with
  | nil =>
    simp only [splitChar, List.mem_singleton] at h
    subst h; rfl
  | cons x xs ih =>
    simp only [splitChar] at h
    by_cases hx : x = c
    · rw [if_pos hx] at h
      rcases List.mem_cons.mp h with rfl | h2
      · cases hh : hasRun ([] : Str) xs <;> simp [hasRun, leadsOf]
      · simp [hasRun, ih h2]
    · rw [if_neg hx] at h
      rcases List.mem_cons.mp h with rfl | h2
      · have : leadsOf ((splitChar c xs).headI) xs = true := by
          rw [headI_splitChar]; exact leadsOf_takeWhile _ xs
        simp [hasRun, leadsOf, this]
      · have h3 : s ∈ splitChar c xs := by
          cases hx2 : splitChar c xs with
          | nil => exact absurd hx2 (splitChar_ne_nil c xs)
          | cons a as => rw [hx2] at h2; exact List.mem_cons_of_mem _ h2
        simp [hasRun, ih h3]

theorem not_mem_of_mem_splitChar {c : Char} {s l : Str}
    (h : s ∈ splitChar c l) : c ∉ s := by
  induction l with
  | nil =>
    simp only [splitChar, List.mem_singleton] at h
    subst h; simp
  | cons x xs ih =>
    simp only [splitChar] at h
    by_cases hx : x = c
    · rw [if_pos hx] at h
      rcases List.mem_cons.mp h with rfl | h2
      · simp
      · exact ih h2
    · rw [if_neg hx] at h
      rcases List.mem_cons.mp h with rfl | h2
      · intro hc
        rcases List.mem_cons.mp hc with rfl | hc2
        · exact hx rfl
        · rw [headI_splitChar] at hc2
          exact absurd (List.mem_takeWhile_imp hc2) (by simp)
      · have h3 : s ∈ splitChar c xs := by
          cases hx2 : splitChar c xs with
          | nil => exact absurd hx2 (splitChar_ne_nil c xs)
          | cons a as => rw [hx2] at h2; exact List.mem_cons_of_mem _ h2
        exact ih h3

theorem not_dots_of_not_hasRun {l : Str}
    (h : hasRun ['.', '.'] l = false) :
    ∀ s ∈ splitChar '/' l, s ≠ ['.', '.'] := by
  intro s hs he
  subst he
  exact absurd (hasRun_of_mem_splitChar hs) (by simp [h])

theorem joinSegs_splitChar (l : Str) : joinSegs (splitChar '/' l) = l := by
  induction l with
  | nil => rfl
  | cons x xs ih =>
    simp only [splitChar]
    obtain ⟨s, ss, hs⟩ : ∃ s ss, splitChar '/' xs = s :: ss := by
      cases hx : splitChar '/' xs with
      | nil => exact absurd hx (splitChar_ne_nil '/' xs)
      | cons s ss => exact ⟨s, ss, rfl⟩
    by_cases hx : x = '/'
    · rw [if_pos hx, hs]
      rw [hs] at ih
      simpa [joinSegs, hx] using ih
    · rw [if_neg hx, hs]
      rw [hs] at ih
      cases ss with
      | nil => simpa [joinSegs] using congrArg (x :: ·) ih
      | cons t ts => simpa [joinSegs] using congrArg (x :: ·) ih

theorem length_joinSegs_take_le (segs : List Str) (k : Nat) :
    (joinSegs (segs.take k)).length ≤ (joinSegs segs).length := by
  induction segs generalizing k with
  | nil => simp
  | cons x xs ih =>
    cases k with
    | zero => simp [joinSegs]
    | succ k =>
      rw [List.take_succ_cons]
      cases xs with
      | nil => simp
      | cons y ys =>
        cases k with
        | zero =>
          simp only [List.take_zero, joinSegs, List.length_append,
            List.length_cons]
          omega
        | succ j =>
          rw [List.take_succ_cons]
          have h1 : joinSegs (x :: y :: ys.take j) =
              x ++ '/' :: joinSegs (y :: ys.take j) := rfl
          have h2 : joinSegs (x :: y :: ys) = x ++ '/' :: joinSegs (y :: ys) := rfl
          rw [h1, h2]
          simp only [List.length_append, List.length_cons]
          have h3 := ih (j + 1)
          rw [List.take_succ_cons] at h3
          omega

theorem normStep_skip (b : Bool) (acc : List Str) {s : Str}
    (h : s = [] ∨ s = ['.']) : normStep b acc s = acc := by
  rcases h with rfl | rfl <;> rfl

theorem normStep_push (b : Bool) (acc : List Str) {s : Str}
    (h0 : ¬(s = [] ∨ s = ['.'])) (h2 : s ≠ ['.', '.']) :
    normStep b acc s = s :: acc := by
  have ha : s ≠ [] := fun e => h0 (Or.inl e)
  have hb : s ≠ ['.'] := fun e => h0 (Or.inr e)
  simp [normStep, ha, hb, h2]

theorem normFold_append (b : Bool) (acc : List Str) (A B : List Str) :
    normFold b acc (A ++ B) = normFold b (normFold b acc A) B := by
  simp [normFold, List.foldl_append]

theorem normFold_no_dots (b : Bool) (A : List Str)
    (h : ∀ s ∈ A, s ≠ ['.', '.']) :
    ∀ acc, normFold b acc A = (A.filter realSeg).reverse ++ acc := by
  induction A with
  | nil => intro acc; rfl
  | cons s A ih =>
    intro acc
    have hs : s ≠ ['.', '.'] := h s (List.mem_cons_self s A)
    have hA : ∀ t ∈ A, t ≠ ['.', '.'] := fun t ht => h t (List.mem_cons_of_mem _ ht)
    show List.foldl (normStep b) (normStep b acc s) A = _
    by_cases hr : s = [] ∨ s = ['.']
    · have hstep := normStep_skip b acc hr
      have hfil : realSeg s = false := by
        rcases hr with rfl | rfl <;> rfl
      rw [hstep, List.filter_cons, hfil]
      simpa [normFold] using ih hA acc
    · have hstep := normStep_push b acc hr hs
      have hfil : realSeg s = true := by
        have ha : s ≠ [] := fun e => hr (Or.inl e)
        have hb : s ≠ ['.'] := fun e => hr (Or.inr e)
        simp [realSeg, ha, hb]
      rw [hstep, List.filter_cons, hfil]
      have := ih hA (s :: acc)
      simp only [normFold] at this
      rw [this]
      simp

theorem mem_normStep (b : Bool) (acc : List Str) (t s : Str)
    (h : s ∈ normStep b acc t) :
    s ∈ acc ∨ (s = t ∧ t ≠ [] ∧ t ≠ ['.']) ∨ s = ['.', '.'] := by
  by_cases h0 : t = [] ∨ t = ['.']
  · rw [normStep_skip b acc h0] at h
    exact Or.inl h
  · have ha : t ≠ [] := fun e => h0 (Or.inl e)
    have hb : t ≠ ['.'] := fun e => h0 (Or.inr e)
    by_cases h2 : t = ['.', '.']
    · subst h2
      cases acc with
      | nil =>
        have hu : normStep b [] ['.', '.'] = if b then [['.', '.']] else [] := rfl
        rw [hu] at h
        cases b with
        | true =>
          simp only [if_true] at h
          rcases List.mem_singleton.mp h with rfl
          exact Or.inr (Or.inr rfl)
        | false => simp at h
      | cons last acc2 =>
        have hu : normStep b (last :: acc2) ['.', '.'] =
            if last = ['.', '.'] then
              (if b then ['.', '.'] :: last :: acc2 else last :: acc2)
            else acc2 := rfl
        rw [hu] at h
        by_cases hl : last = ['.', '.']
        · rw [if_pos hl] at h
          cases b with
          | true =>
            simp only [if_pos rfl] at h
            rcases List.mem_cons.mp h with rfl | hm
            · exact Or.inr (Or.inr rfl)
            · exact Or.inl hm
          | false =>
            rw [if_neg (by simp)] at h
            exact Or.inl h
        · rw [if_neg hl] at h
          exact Or.inl (List.mem_cons_of_mem _ h)
    · rw [normStep_push b acc h0 h2] at h
      rcases List.mem_cons.mp h with rfl | hm
      · exact Or.inr (Or.inl ⟨rfl, ha, hb⟩)
      · exact Or.inl hm

theorem mem_normFold (b : Bool) (A : List Str) :
    ∀ acc s, s ∈ normFold b acc A →
      s ∈ acc ∨ (s ∈ A ∧ s ≠ [] ∧ s ≠ ['.']) ∨ s = ['.', '.'] := by
  induction A with
  | nil => intro acc s h; exact Or.inl h
  | cons t A ih =>
    intro acc s h
    have h2 : s ∈ normFold b (normStep b acc t) A := h
    rcases ih (normStep b acc t) s h2 with hmem | hrest | hdots
    · rcases mem_normStep b acc t s hmem with hm | ⟨rfl, hne, hnd⟩ | hd
      · exact Or.inl hm
      · exact Or.inr (Or.inl ⟨List.mem_cons_self _ _, hne, hnd⟩)
      · exact Or.inr (Or.inr hd)
    · exact Or.inr (Or.inl ⟨List.mem_cons_of_mem _ hrest.1, hrest.2⟩)
    · exact Or.inr (Or.inr hdots)

theorem normalizePath_eq (p : Str) (hp : p ≠ []) :
    normalizePath p =
      if joinSegs ((normFold (!isAbs p) [] (splitChar '/' p)).reverse) = [] then
        (if isAbs p then ['/']
         else if p.getLast? = some '/' then ['.', '/'] else ['.'])
      else
        (if isAbs p then
          '/' :: (if p.getLast? = some '/' then
            joinSegs ((normFold (!isAbs p) [] (splitChar '/' p)).reverse) ++ ['/']
          else joinSegs ((normFold (!isAbs p) [] (splitChar '/' p)).reverse))
         else
          (if p.getLast? = some '/' then
            joinSegs ((normFold (!isAbs p) [] (splitChar '/' p)).reverse) ++ ['/']
          else joinSegs ((normFold (!isAbs p) [] (splitChar '/' p)).reverse))) := by
  cases p with
  | nil => exact absurd rfl hp
  | cons c r => rfl

theorem normalizePath_ne_nil (p : Str) : normalizePath p ≠ [] := by
  cases p with
  | nil => simp [normalizePath]
  | cons c r =>
    rw [normalizePath_eq (c :: r) (by simp)]
    by_cases hb : joinSegs ((normFold (!isAbs (c :: r)) []
        (splitChar '/' (c :: r))).reverse) = []
    · rw [if_pos hb]
      split
      · simp
      · split <;> simp
    · rw [if_neg hb]
      split
      · simp
      · split <;> simp [hb]

theorem segs_facts (p : Str) :
    ∀ s ∈ (normFold (!isAbs p) [] (splitChar '/' p)).reverse,
      s ≠ [] ∧ ('/' : Char) ∉ s ∧ realSeg s = true := by
  intro s hs
  rw [List.mem_reverse] at hs
  rcases mem_normFold (!isAbs p) (splitChar '/' p) [] s hs with h | ⟨hm, hne, hnd⟩ | hd
  · cases h
  · refine ⟨hne, not_mem_of_mem_splitChar hm, ?_⟩
    simp [realSeg, hne, hnd]
  · subst hd
    refine ⟨by simp, by simp, by rfl⟩

theorem isAbs_joinSegs_false {segs : List Str}
    (h : ∀ s ∈ segs, s ≠ [] ∧ ('/' : Char) ∉ s) :
    isAbs (joinSegs segs) = false := by
  cases segs with
  | nil => rfl
  | cons s r =>
    obtain ⟨hne, hnm⟩ := h s (List.mem_cons_self _ _)
    cases s with
    | nil => exact absurd rfl hne
    | cons a t =>
      have ha : a ≠ '/' := fun e => hnm (by simp [e])
      cases r with
      | nil => simp [joinSegs, isAbs, ha]
      | cons u v => simp [joinSegs, isAbs, ha]

theorem isAbs_append_last {l t : Str} (h : l ≠ []) :
    isAbs (l ++ t) = isAbs l := by
  cases l with
  | nil => exact absurd rfl h
  | cons a r => rfl

theorem isAbs_normalizePath (p : Str) : isAbs (normalizePath p) = isAbs p := by
  cases p with
  | nil => rfl
  | cons c r =>
    rw [normalizePath_eq (c :: r) (by simp)]
    by_cases hc : c = '/'
    · subst hc
      have habs : isAbs ('/' :: r) = true := by simp [isAbs]
      rw [habs]
      simp only [if_true]
      split
      · rfl
      · rfl
    · have habs : isAbs (c :: r) = false := by simp [isAbs, hc]
      have hsf := segs_facts (c :: r)
      rw [habs] at hsf
      simp only [Bool.not_false] at hsf
      have hbody : isAbs (joinSegs ((normFold true []
          (splitChar '/' (c :: r))).reverse)) = false :=
        isAbs_joinSegs_false (fun s hs => ⟨(hsf s hs).1, (hsf s hs).2.1⟩)
      rw [habs]
      simp only [Bool.not_false, Bool.false_eq_true, if_false]
      split
      · split
        · rfl
        · rfl
      · rename_i hbb
        split
        · rw [isAbs_append_last hbb, hbody]
        · exact hbody

theorem splitChar_joinSegs (segs : List Str) (h0 : segs ≠ [])
    (h : ∀ s ∈ segs, ('/' : Char) ∉ s) :
    splitChar '/' (joinSegs segs) = segs := by
  induction segs with
  | nil => exact absurd rfl h0
  | cons s r ih =>
    cases r with
    | nil => simpa [joinSegs] using splitChar_of_not_mem (h s (by simp))
    | cons t ts =>
      have hj : joinSegs (s :: t :: ts) = s ++ '/' :: joinSegs (t :: ts) := rfl
      rw [hj, splitChar_append, splitChar_of_not_mem (h s (by simp)),
        ih (by simp) (fun u hu => h u (List.mem_cons_of_mem _ hu))]
      rfl

theorem realSeg_spec {s : Str} (h : realSeg s = true) : s ≠ [] ∧ s ≠ ['.'] := by
  constructor <;> · intro e; subst e; simp [realSeg] at h

theorem joinSegs_ne_nil {segs : List Str} (h0 : segs ≠ [])
    (h : ∀ s ∈ segs, s ≠ []) : joinSegs segs ≠ [] := by
  cases segs with
  | nil => exact absurd rfl h0
  | cons s r =>
    cases r with
    | nil => exact h s (by simp)
    | cons t ts => simp [joinSegs]

theorem splitChar_slash_cons (l : Str) :
    splitChar '/' ('/' :: l) = [] :: splitChar '/' l := by
  simp [splitChar]

theorem cleanSegs_joinPath (base p : Str)
    (hab : isAbs base = true)
    (hbase : ∀ s ∈ splitChar '/' base, s ≠ ['.', '.'])
    (hp0 : p ≠ [])
    (hp : ∀ s ∈ splitChar '/' p, s ≠ ['.', '.']) :
    isAbs (joinPath base p) = true ∧
    cleanSegs (joinPath base p) = cleanSegs base ++ cleanSegs p ∧
    (∀ s ∈ splitChar '/' (joinPath base p), s ≠ ['.', '.']) := by
  have hbne : base ≠ [] := by
    intro e; rw [e] at hab; exact absurd hab (by simp [isAbs])
  have hjne : base ++ '/' :: p ≠ [] := by simp
  have hjoin : joinPath base p = normalizePath (base ++ '/' :: p) := by
    show (if (if base = [] then p else if p = [] then base else base ++ '/' :: p) = []
          then ['.']
          else normalizePath
            (if base = [] then p else if p = [] then base else base ++ '/' :: p)) = _
    rw [if_neg hbne, if_neg hp0, if_neg hjne]
  have habsJ : isAbs (base ++ '/' :: p) = true := by
    rw [isAbs_append_last hbne]; exact hab
  have hsplitJ : splitChar '/' (base ++ '/' :: p) =
      splitChar '/' base ++ splitChar '/' p := splitChar_append '/' base p
  have hsegsJ : (normFold (!isAbs (base ++ '/' :: p)) []
      (splitChar '/' (base ++ '/' :: p))).reverse =
      cleanSegs base ++ cleanSegs p := by
    rw [habsJ, hsplitJ]
    rw [show (!true) = false from rfl]
    rw [normFold_append false [] (splitChar '/' base) (splitChar '/' p)]
    rw [normFold_no_dots false (splitChar '/' base) hbase []]
    rw [normFold_no_dots false (splitChar '/' p) hp _]
    simp [cleanSegs]
  have hSreal : ∀ s ∈ cleanSegs base ++ cleanSegs p, realSeg s = true := by
    intro s hs
    rcases List.mem_append.mp hs with h1 | h1 <;> exact List.of_mem_filter h1
  have hSne : ∀ s ∈ cleanSegs base ++ cleanSegs p, s ≠ [] := fun s hs =>
    (realSeg_spec (hSreal s hs)).1
  have hSnoslash : ∀ s ∈ cleanSegs base ++ cleanSegs p, ('/' : Char) ∉ s := by
    intro s hs
    rcases List.mem_append.mp hs with h1 | h1 <;>
      exact not_mem_of_mem_splitChar (List.mem_of_mem_filter h1)
  have hSnodots : ∀ s ∈ cleanSegs base ++ cleanSegs p, s ≠ ['.', '.'] := by
    intro s hs
    rcases List.mem_append.mp hs with h1 | h1
    · exact hbase s (List.mem_of_mem_filter h1)
    · exact hp s (List.mem_of_mem_filter h1)
  have hfilterB : (cleanSegs base).filter realSeg = cleanSegs base :=
    List.filter_eq_self.mpr (fun s hs => List.of_mem_filter hs)
  have hfilterP : (cleanSegs p).filter realSeg = cleanSegs p :=
    List.filter_eq_self.mpr (fun s hs => List.of_mem_filter hs)
  rw [hjoin, normalizePath_eq _ hjne, hsegsJ]
  by_cases hS : cleanSegs base ++ cleanSegs p = []
  · rw [hS]
    rw [show joinSegs ([] : List Str) = [] from rfl, if_pos rfl, if_pos habsJ]
    exact ⟨rfl, by decide, by decide⟩
  · have hbody : joinSegs (cleanSegs base ++ cleanSegs p) ≠ [] :=
      joinSegs_ne_nil hS hSne
    rw [if_neg hbody]
    rw [if_pos habsJ]
    have hsplitBody : splitChar '/' (joinSegs (cleanSegs base ++ cleanSegs p)) =
        cleanSegs base ++ cleanSegs p :=
      splitChar_joinSegs _ hS hSnoslash
    by_cases ht : (base ++ '/' :: p).getLast? = some '/'
    · rw [if_pos ht]
      have hsplit2 : splitChar '/'
          (joinSegs (cleanSegs base ++ cleanSegs p) ++ ['/']) =
          (cleanSegs base ++ cleanSegs p) ++ [[]] := by
        have : joinSegs (cleanSegs base ++ cleanSegs p) ++ ['/'] =
            joinSegs (cleanSegs base ++ cleanSegs p) ++ '/' :: [] := rfl
        rw [this, splitChar_append, hsplitBody]
        rfl
      refine ⟨rfl, ?_, ?_⟩
      · show (splitChar '/' ('/' :: (joinSegs (cleanSegs base ++ cleanSegs p) ++
          ['/']))).filter realSeg = _
        rw [splitChar_slash_cons, hsplit2]
        simp only [List.filter_cons, List.filter_append]
        rw [show realSeg [] = false from rfl]
        simp [hfilterB, hfilterP]
      · intro s hs
        rw [splitChar_slash_cons, hsplit2] at hs
        rcases List.mem_cons.mp hs with rfl | hs2
        · simp
        · rcases List.mem_append.mp hs2 with h1 | h1
          · exact hSnodots s h1
          · rcases List.mem_singleton.mp h1 with rfl
            simp
    · rw [if_neg ht]
      refine ⟨rfl, ?_, ?_⟩
      · show (splitChar '/' ('/' :: joinSegs (cleanSegs base ++ cleanSegs p))).filter
          realSeg = _
        rw [splitChar_slash_cons, hsplitBody]
        simp only [List.filter_cons, List.filter_append]
        rw [show realSeg [] = false from rfl]
        simp [hfilterB, hfilterP]
      · intro s hs
        rw [splitChar_slash_cons, hsplitBody] at hs
        rcases List.mem_cons.mp hs with rfl | hs2
        · simp
        · exact hSnodots s hs2

theorem sanitizePath_ok {fp p : Str} (h : sanitizePath fp = .ok p) :
    p = normalizePath fp ∧ hasRun ['.', '.'] p = false ∧ isAbs p = false := by
  simp only [sanitizePath] at h
  split at h
  · exact Except.noConfusion h
  · rename_i hc
    injection h with h2
    subst h2
    simp only [Bool.or_eq_true, not_or, Bool.not_eq_true] at hc
    exact ⟨rfl, hc.1, hc.2⟩

/-- Whenever path validation succeeds under an active project, the full path
the three file tools derive lies under the project directory. -/
theorem toolFullPath_isUnder (env : Env) (pid fp full : Str)
    (hab : isAbs env.websitesDir = true)
    (h1 : hasRun ['.', '.'] env.websitesDir = false)
    (h2 : hasRun ['.', '.'] pid = false)
    (hpid0 : pid ≠ [])
    (hfull : toolFullPath env (some pid) fp = .ok full) :
    isUnder (getProjectPath env pid) full = true := by
  simp only [toolFullPath] at hfull
  cases hs : sanitizePath fp with
  | error e => rw [hs] at hfull; exact Except.noConfusion hfull
  | ok p =>
    rw [hs] at hfull
    injection hfull with hfull2
    obtain ⟨hpn, hpdots, hprel⟩ := sanitizePath_ok hs
    have hbase := cleanSegs_joinPath env.websitesDir pid hab
      (not_dots_of_not_hasRun h1) hpid0 (not_dots_of_not_hasRun h2)
    have hp0 : p ≠ [] := by rw [hpn]; exact normalizePath_ne_nil fp
    have hfinal := cleanSegs_joinPath (joinPath env.websitesDir pid) p
      hbase.1 hbase.2.2 hp0 (not_dots_of_not_hasRun hpdots)
    rw [← hfull2]
    simp only [isUnder, getProjectPath, hfinal.1, hfinal.2.1, Bool.true_and]
    exact leadsOf_append_self _ _

/-! ### Lemmas about the filesystem model -/

theorem fsLookup_filter_ne (fs : FS) (p q : Str) (h : q ≠ p) :
    fsLookup (fs.filter (fun kv => kv.1 ≠ p)) q = fsLookup fs q := by
  induction fs with
  | nil => rfl
  | cons kv rest ih =>
    by_cases h2 : kv.1 = p
    · rw [List.filter_cons, if_neg (by simp [h2]), ih]
      rw [show fsLookup (kv :: rest) q = if q = kv.1 then some kv.2
        else fsLookup rest q from rfl]
      rw [if_neg (by rw [h2]; exact h)]
    · rw [List.filter_cons, if_pos (by simp [h2])]
      rw [show fsLookup (kv :: (rest.filter (fun kv => kv.1 ≠ p))) q =
        if q = kv.1 then some kv.2
        else fsLookup (rest.filter (fun kv => kv.1 ≠ p)) q from rfl]
      rw [show fsLookup (kv :: rest) q = if q = kv.1 then some kv.2
        else fsLookup rest q from rfl]
      by_cases h3 : q = kv.1
      · rw [if_pos h3, if_pos h3]
      · rw [if_neg h3, if_neg h3, ih]

theorem fsLookup_fsSet (fs : FS) (p : Str) (n : FsNode) (q : Str) :
    fsLookup (fsSet fs p n) q = if q = p then some n else fsLookup fs q := by
  rw [show fsLookup (fsSet fs p n) q = if q = p then some n
    else fsLookup (fs.filter (fun kv => kv.1 ≠ p)) q from rfl]
  by_cases h : q = p
  · rw [if_pos h, if_pos h]
  · rw [if_neg h, if_neg h, fsLookup_filter_ne fs p q h]

theorem existsSync_fsSet_of {fs : FS} {q : Str} (p : Str) (n : FsNode)
    (h : existsSync fs q = true) : existsSync (fsSet fs p n) q = true := by
  rw [existsSync, fsLookup_fsSet]
  split
  · rfl
  · exact h

theorem mkdirGo_mono (l : List Str) : ∀ (fs : FS) (q : Str),
    existsSync fs q = true → existsSync (mkdirGo fs l).1 q = true := by
  induction l with
  | nil => intro fs q h; exact h
  | cons a rest ih =>
    intro fs q h
    show existsSync (match fsLookup fs a with
      | some (.file _) => (fs, Except.error ("ENOTDIR: not a directory, mkdir ".data ++ a))
      | some .dir => mkdirGo fs rest
      | none => mkdirGo (fsSet fs a .dir) rest).1 q = true
    cases hl : fsLookup fs a with
    | none => exact ih _ q (existsSync_fsSet_of a .dir h)
    | some n =>
      cases n with
      | file c => exact h
      | dir => exact ih fs q h

theorem mkdirGo_ok_exists (l : List Str) : ∀ (fs : FS),
    (mkdirGo fs l).2 = .ok () →
    ∀ q ∈ l, existsSync (mkdirGo fs l).1 q = true := by
  induction l with
  | nil => intro fs _ q hq; cases hq
  | cons a rest ih =>
    intro fs hok q hq
    have hmatch : mkdirGo fs (a :: rest) = (match fsLookup fs a with
      | some (.file _) => (fs, Except.error ("ENOTDIR: not a directory, mkdir ".data ++ a))
      | some .dir => mkdirGo fs rest
      | none => mkdirGo (fsSet fs a .dir) rest) := rfl
    rw [hmatch] at hok ⊢
    cases hl : fsLookup fs a with
    | none =>
      rw [hl] at hok
      rcases List.mem_cons.mp hq with rfl | hq2
      · exact mkdirGo_mono rest (fsSet fs q .dir) q
          (by rw [existsSync, fsLookup_fsSet, if_pos rfl]; rfl)
      · exact ih _ hok q hq2
    | some n =>
      rw [hl] at hok
      cases n with
      | file c => exact Except.noConfusion hok
      | dir =>
        rcases List.mem_cons.mp hq with rfl | hq2
        · exact mkdirGo_mono rest fs q (by rw [existsSync, hl]; rfl)
        · exact ih fs hok q hq2

theorem mkdirGo_lookup_of_not_mem (l : List Str) : ∀ (fs : FS) (q : Str),
    q ∉ l → fsLookup (mkdirGo fs l).1 q = fsLookup fs q := by
  induction l with
  | nil => intro fs q _; rfl
  | cons a rest ih =>
    intro fs q hq
    have hqa : q ≠ a := fun e => hq (by simp [e])
    have hqr : q ∉ rest := fun e => hq (List.mem_cons_of_mem _ e)
    show fsLookup (match fsLookup fs a with
      | some (.file _) => (fs, Except.error ("ENOTDIR: not a directory, mkdir ".data ++ a))
      | some .dir => mkdirGo fs rest
      | none => mkdirGo (fsSet fs a .dir) rest).1 q = fsLookup fs q
    cases hl : fsLookup fs a with
    | none =>
      rw [ih _ q hqr, fsLookup_fsSet, if_neg hqa]
    | some n =>
      cases n with
      | file c => rfl
      | dir => exact ih fs q hqr

theorem mem_ancestorChain_length_le {p q : Str} (h : q ∈ ancestorChain p) :
    q.length ≤ p.length := by
  simp only [ancestorChain, List.mem_filter, List.mem_map, List.mem_range] at h
  obtain ⟨⟨i, hi, rfl⟩, hne⟩ := h
  calc (joinSegs ((splitChar '/' p).take (i + 1))).length
      ≤ (joinSegs (splitChar '/' p)).length := length_joinSegs_take_le _ _
    _ = p.length := by rw [joinSegs_splitChar]

theorem self_mem_ancestorChain {p : Str} (hp : p ≠ []) : p ∈ ancestorChain p := by
  have hlen : 0 < (splitChar '/' p).length :=
    List.length_pos.mpr (splitChar_ne_nil '/' p)
  simp only [ancestorChain, List.mem_filter, List.mem_map, List.mem_range]
  refine ⟨⟨(splitChar '/' p).length - 1, by omega, ?_⟩, by simp [hp]⟩
  rw [show (splitChar '/' p).length - 1 + 1 = (splitChar '/' p).length from by omega]
  rw [List.take_length]
  exact joinSegs_splitChar p

/-! ### Lemmas about command tokens -/

theorem takeWhile_takeWhile_of_imp (p q : Char → Bool) (l : Str)
    (himp : ∀ c, p c = true → q c = true) :
    (l.takeWhile q).takeWhile p = l.takeWhile p := by
  induction l with
  | nil => rfl
  | cons x xs ih =>
    by_cases hq : q x = true
    · rw [List.takeWhile_cons_of_pos hq]
      by_cases hp : p x = true
      · rw [List.takeWhile_cons_of_pos hp, List.takeWhile_cons_of_pos hp, ih]
      · rw [List.takeWhile_cons_of_neg (by simp [hp]),
          List.takeWhile_cons_of_neg (by simp [hp])]
    · have hp : ¬p x = true := fun h => hq (himp x h)
      rw [List.takeWhile_cons_of_neg (by simp [hq]),
        List.takeWhile_cons_of_neg (by simp [hp])]
      rfl

theorem takeWhile_append_of_all {p : Char → Bool} {a : Str} (b : Str)
    (h : ∀ c ∈ a, p c = true) : (a ++ b).takeWhile p = a ++ b.takeWhile p := by
  induction a with
  | nil => rfl
  | cons x xs ih =>
    rw [List.cons_append, List.takeWhile_cons_of_pos (h x (by simp)),
      ih (fun c hc => h c (by simp [hc]))]
    rfl

theorem isValid_not_ok_of_blockedWs {cmd : Str}
    (h : wsFirstTok cmd ∈ blockedCommands) :
    isValidCommandE cmd ≠ .ok true := by
  intro hok
  simp only [isValidCommandE] at hok
  split at hok
  · exact Except.noConfusion hok
  · rename_i hnb
    injection hok with hb
    have hws : wsFirstTok cmd =
        ((jsTrim cmd).takeWhile (fun c => c ≠ ' ')).takeWhile
          (fun c => !isJsWs c) := by
      rw [wsFirstTok, takeWhile_takeWhile_of_imp]
      intro c hc
      simp only [Bool.not_eq_true'] at hc
      simp only [decide_eq_true_eq]
      intro he
      subst he
      simp [isJsWs] at hc
    rw [Bool.or_eq_true] at hb
    rcases hb with hal | hecho
    · have hcnal : (jsTrim cmd).takeWhile (fun c => c ≠ ' ') ∈ allowedCommands := by
        simpa using hal
      have hid : ∀ x ∈ allowedCommands,
          x.takeWhile (fun c => !isJsWs c) = x := by decide
      have heq : wsFirstTok cmd = (jsTrim cmd).takeWhile (fun c => c ≠ ' ') := by
        rw [hws, hid _ hcnal]
      have hdisj : ∀ x ∈ allowedCommands, x ∉ blockedCommands := by decide
      exact hdisj _ hcnal (heq ▸ h)
    · obtain ⟨t, ht⟩ := (leadsOf_iff _ _).mp hecho
      have heq : wsFirstTok cmd =
          "echo".data ++ t.takeWhile (fun c => !isJsWs c) := by
        rw [hws, ht, takeWhile_append_of_all]
        decide
      have hlead : leadsOf ("echo".data) (wsFirstTok cmd) = true := by
        rw [heq]; exact leadsOf_append_self _ _
      have hnoecho : ∀ x ∈ blockedCommands,
          leadsOf ("echo".data) x = false := by decide
      rw [hnoecho _ h] at hlead
      exact Bool.noConfusion hlead

theorem dropWhile_decomp (p : Char → Bool) (l : Str) :
    ∃ w, l = w ++ l.dropWhile p := by
  induction l with
  | nil => exact ⟨[], rfl⟩
  | cons x xs ih =>
    by_cases h : p x = true
    · obtain ⟨w, hw⟩ := ih
      refine ⟨x :: w, ?_⟩
      rw [List.dropWhile_cons, if_pos h, List.cons_append, ← hw]
    · refine ⟨[], ?_⟩
      rw [List.dropWhile_cons, if_neg h]
      rfl

theorem jsTrim_append_token {a : Str} (b : Str) (ha : a ≠ [])
    (hnw : ∀ c ∈ a, isJsWs c = false) :
    jsTrim (a ++ b) = a ++ (b.reverse.dropWhile isJsWs).reverse := by
  obtain ⟨x, xs, rfl⟩ : ∃ x xs, a = x :: xs := by
    cases a with
    | nil => exact absurd rfl ha
    | cons x xs => exact ⟨x, xs, rfl⟩
  have hx : isJsWs x = false := hnw x (by simp)
  rw [jsTrim]
  rw [show ((x :: xs) ++ b).dropWhile isJsWs = (x :: xs) ++ b from by
    rw [List.cons_append, List.dropWhile_cons, if_neg (by simp [hx])]]
  rw [List.reverse_append, List.dropWhile_append]
  by_cases hbe : ((b.reverse.dropWhile isJsWs).isEmpty : Prop)
  · rw [if_pos hbe]
    have hb0 : b.reverse.dropWhile isJsWs = [] := by
      cases hc : b.reverse.dropWhile isJsWs with
      | nil => rfl
      | cons u v => rw [hc] at hbe; exact absurd hbe (by simp [List.isEmpty])
    have hrev : (x :: xs).reverse.dropWhile isJsWs = (x :: xs).reverse := by
      cases hr : (x :: xs).reverse with
      | nil => exact absurd hr (by simp)
      | cons y ys =>
        have hy : isJsWs y = false := by
          have hmem : y ∈ (x :: xs).reverse := by rw [hr]; simp
          exact hnw y (List.mem_reverse.mp hmem)
        rw [List.dropWhile_cons, if_neg (by simp [hy])]
    rw [hrev, List.reverse_reverse, hb0]
    simp
  · rw [if_neg hbe, List.reverse_append, List.reverse_reverse]

theorem spaceTok_token_space (tok rest : Str) (h0 : tok ≠ [])
    (hnw : ∀ c ∈ tok, isJsWs c = false) :
    (jsTrim (tok ++ ' ' :: rest)).takeWhile (fun c => c ≠ ' ') = tok := by
  rw [jsTrim_append_token (' ' :: rest) h0 hnw]
  have hall : ∀ c ∈ tok, (fun c => decide (c ≠ ' ')) c = true := by
    intro c hc
    have hcw := hnw c hc
    simp only [decide_eq_true_eq]
    intro he
    subst he
    simp [isJsWs] at hcw
  rw [takeWhile_append_of_all _ hall]
  cases hveq : ((' ' :: rest).reverse.dropWhile isJsWs).reverse with
  | nil => simp
  | cons y ys =>
    obtain ⟨w, hw⟩ := dropWhile_decomp isJsWs ((' ' :: rest).reverse)
    have hsplit : ' ' :: rest =
        ((' ' :: rest).reverse.dropWhile isJsWs).reverse ++ w.reverse := by
      have := congrArg List.reverse hw
      rw [List.reverse_reverse, List.reverse_append] at this
      exact this
    rw [hveq] at hsplit
    have hy : y = ' ' := by
      have := hsplit
      rw [List.cons_append] at this
      injection this with h1 _
      exact h1.symm
    subst hy
    rw [List.takeWhile_cons, if_neg (by simp)]
    simp

theorem spaceTok_token_only (tok : Str) (h0 : tok ≠ [])
    (hnw : ∀ c ∈ tok, isJsWs c = false) :
    (jsTrim tok).takeWhile (fun c => c ≠ ' ') = tok := by
  have h1 : jsTrim tok = tok := by
    have := jsTrim_append_token [] h0 hnw
    simpa using this
  rw [h1]
  have hall : ∀ c ∈ tok, (fun c => decide (c ≠ ' ')) c = true := by
    intro c hc
    have hcw := hnw c hc
    simp only [decide_eq_true_eq]
    intro he
    subst he
    simp [isJsWs] at hcw
  have := takeWhile_append_of_all (p := fun c => decide (c ≠ ' ')) [] hall
  simpa using this

/-! ### Lemmas about the tool-call loop -/

theorem runOneCall_parse_error (env : Env) (pid : Str) (fs : FS)
    (fu : Except Str Unit) (name e : Str) :
    runOneCall env pid fs fu { name := name, argsJSON := .error e } =
      (fs, [{ tool := name, args := none, result := .plain e }]) := rfl

theorem runOneCall_ok_entries (env : Env) (pid : Str) (fs : FS)
    (fu : Except Str Unit) (name : Str) (args : JsArgs) :
    runOneCall env pid fs fu { name := name, argsJSON := .ok args } =
      ((dispatchTool env pid fs name args).1,
        { tool := name, args := some args,
          result := (dispatchTool env pid fs name args).2 } ::
        (match fu with
          | .ok _ => []
          | .error e => [{ tool := name, args := none, result := .plain e }])) := by
  cases fu <;> rfl

theorem runOneCall_tools (env : Env) (pid : Str) (fs : FS)
    (fu : Except Str Unit) (tc : ToolCallJs) :
    ∃ extra, ((runOneCall env pid fs fu tc).2).map (fun e => e.tool) =
      tc.name :: extra := by
  obtain ⟨name, argsJSON⟩ := tc
  cases argsJSON with
  | error e => exact ⟨[], rfl⟩
  | ok args =>
    cases fu with
    | ok u => exact ⟨[], rfl⟩
    | error e => exact ⟨[name], rfl⟩

theorem runCalls_cons (env : Env) (o : BuildOracle) (fs : FS) (i : Nat)
    (tc : ToolCallJs) (rest : List ToolCallJs) :
    runCalls env o fs i (tc :: rest) =
      ((runCalls env o (runOneCall env o.projectId fs (o.followUp i) tc).1
          (i + 1) rest).1,
       (runOneCall env o.projectId fs (o.followUp i) tc).2 ++
         (runCalls env o (runOneCall env o.projectId fs (o.followUp i) tc).1
           (i + 1) rest).2) := rfl

theorem runCalls_append (env : Env) (o : BuildOracle) (l1 l2 : List ToolCallJs) :
    ∀ (fs : FS) (i : Nat),
      runCalls env o fs i (l1 ++ l2) =
        ((runCalls env o (runCalls env o fs i l1).1 (i + l1.length) l2).1,
         (runCalls env o fs i l1).2 ++
           (runCalls env o (runCalls env o fs i l1).1 (i + l1.length) l2).2) := by
  induction l1 with
  | nil =>
    intro fs i
    simp [runCalls]
  | cons tc rest ih =>
    intro fs i
    rw [List.cons_append, runCalls_cons, runCalls_cons, ih]
    rw [show i + 1 + rest.length = i + (tc :: rest).length from by
      simp [List.length_cons]; omega]
    simp [List.append_assoc]

theorem runCalls_names_sublist (env : Env) (o : BuildOracle)
    (l : List ToolCallJs) : ∀ (fs : FS) (i : Nat),
    List.Sublist (l.map (fun tc => tc.name))
      (((runCalls env o fs i l).2).map (fun e => e.tool)) := by
  induction l with
  | nil => intro fs i; simp [runCalls]
  | cons tc rest ih =>
    intro fs i
    rw [runCalls_cons]
    simp only [List.map_cons, List.map_append]
    obtain ⟨extra, he⟩ := runOneCall_tools env o.projectId fs (o.followUp i) tc
    rw [he, List.cons_append]
    exact List.Sublist.cons₂ _ ((ih _ _).trans (List.sublist_append_right extra _))

/-- The successful run of the build endpoint, spelled out: with a valid
prompt, a created project directory and a successful model call, the endpoint
answers 200 with the aggregate of the batch. -/
theorem buildEndpoint_run (env : Env) (o : BuildOracle) (fs : FS)
    (prompt : Str) (msg : ModelMessage)
    (hne : prompt ≠ []) (hlen : jsLen prompt ≤ 2000)
    (hmk : (mkdirRecE fs (getProjectPath env o.projectId)).2 = .ok ())
    (hmsg : o.modelResponse = .ok msg) :
    buildEndpoint env o fs { userPrompt := some (.str prompt) } =
      ({ status := 200, success := true, message := msg.content,
         projectId := some o.projectId,
         previewUrl :=
           if existsSync (runCalls env o
               (mkdirRecE fs (getProjectPath env o.projectId)).1 0
               (msg.toolCalls.getD [])).1
             (joinPath (getProjectPath env o.projectId) ("index.html".data)) then
             some ("http://localhost:5000/".data ++ o.projectId ++ "/".data)
           else none,
         executionResults := (runCalls env o
           (mkdirRecE fs (getProjectPath env o.projectId)).1 0
           (msg.toolCalls.getD [])).2,
         stats := some ⟨(msg.toolCalls.getD []).length,
           some (existsSync (runCalls env o
             (mkdirRecE fs (getProjectPath env o.projectId)).1 0
             (msg.toolCalls.getD [])).1
             (joinPath (getProjectPath env o.projectId) ("index.html".data)))⟩ },
       (runCalls env o (mkdirRecE fs (getProjectPath env o.projectId)).1 0
         (msg.toolCalls.getD [])).1) := by
  have hmk2 : mkdirRecE fs (getProjectPath env o.projectId) =
      ((mkdirRecE fs (getProjectPath env o.projectId)).1, Except.ok ()) := by
    rw [← hmk]
  show (if prompt = [] then _
    else if 2000 < jsLen prompt then _
    else _) = _
  rw [if_neg hne, if_neg (by omega : ¬2000 < jsLen prompt), hmsg]
  dsimp only
  rw [hmk2]

/-! ### Claims -/

/-- Claim C1, counterexample.  The claim says every filesystem path a tool
call touches resolves inside the active project directory.  ExecuteCommand
validates only the leading command name, so the validator accepts the command
cat with the absolute argument path, the executor runs it with only the
working directory set to the project, and that argument path, POSIX-resolved
against the project working directory, lies outside the project directory. -/
theorem C1_counterexample :
    isValidCommandE ("cat /etc/passwd".data) = .ok true ∧
    (ExecuteCommand demoEnv (some ("w1".data)) demoFs
      { command := some ("cat /etc/passwd".data) }).2.success = true ∧
    ("cat /etc/passwd".data : Str) = "cat ".data ++ "/etc/passwd".data ∧
    resolveAgainst (getProjectPath demoEnv ("w1".data)) ("/etc/passwd".data) =
      "/etc/passwd".data ∧
    isUnder (getProjectPath demoEnv ("w1".data)) ("/etc/passwd".data) = false := by
  decide

/-- Claim C1, amended: the three file actions (WriteFile, ReadFile,
ListDirectory) resolve every path they touch under the active project
directory — whenever path validation succeeds, the joined full path lies
under the project directory; ExecuteCommand constrains only the command name
and its arguments are not path-checked. -/
theorem C1_corrected (env : Env) (pid fp full : Str)
    (hab : isAbs env.websitesDir = true)
    (h1 : hasRun ['.', '.'] env.websitesDir = false)
    (h2 : hasRun ['.', '.'] pid = false)
    (hpid0 : pid ≠ [])
    (hfull : toolFullPath env (some pid) fp = .ok full) :
    isUnder (getProjectPath env pid) full = true :=
  toolFullPath_isUnder env pid fp full hab h1 h2 hpid0 hfull

theorem C1_witness :
    toolFullPath demoEnv (some ("w1".data)) ("css/style.css".data) =
      .ok ("/app/websites/w1/css/style.css".data) ∧
    isUnder (getProjectPath demoEnv ("w1".data))
      ("/app/websites/w1/css/style.css".data) = true :=
  ⟨by decide,
   C1_corrected demoEnv ("w1".data) ("css/style.css".data)
     ("/app/websites/w1/css/style.css".data) (by decide) (by decide) (by decide)
     (by decide) (by decide)⟩

/-- Claim C3, counterexample.  The claim says every relative path whose
normalized form has no parent-traversal segment is returned in normalized
form.  The code instead applies the JS substring test for the two-dot run to
the normalized string: the relative path a..b normalizes to itself, has no
traversal segment, and is still rejected. -/
theorem C3_counterexample :
    sanitizePath ("a..b".data) =
      .error ("Invalid file path: directory traversal not allowed".data) ∧
    isAbs ("a..b".data) = false ∧
    normalizePath ("a..b".data) = "a..b".data ∧
    (splitChar '/' ("a..b".data)).all (fun s => decide (s ≠ ['.', '.'])) = true := by
  decide

/-- Claim C3, amended: sanitizePath rejects every absolute path and every
path whose normalized form contains the two-dot run anywhere in the string
(not only as a whole traversal segment); every other relative path is
returned in normalized form. -/
theorem C3_corrected (fp : Str) :
    (isAbs fp = true → sanitizePath fp =
      .error ("Invalid file path: directory traversal not allowed".data)) ∧
    (hasRun ['.', '.'] (normalizePath fp) = true → sanitizePath fp =
      .error ("Invalid file path: directory traversal not allowed".data)) ∧
    (isAbs fp = false → hasRun ['.', '.'] (normalizePath fp) = false →
      sanitizePath fp = .ok (normalizePath fp)) := by
  refine ⟨?_, ?_, ?_⟩
  · intro h
    have h2 : isAbs (normalizePath fp) = true := by
      rw [isAbs_normalizePath]; exact h
    show (if hasRun ['.', '.'] (normalizePath fp) || isAbs (normalizePath fp)
      then _ else _) = _
    rw [if_pos (by rw [h2]; simp)]
  · intro h
    show (if hasRun ['.', '.'] (normalizePath fp) || isAbs (normalizePath fp)
      then _ else _) = _
    rw [if_pos (by rw [h]; simp)]
  · intro h1 h2
    have h3 : isAbs (normalizePath fp) = false := by
      rw [isAbs_normalizePath]; exact h1
    show (if hasRun ['.', '.'] (normalizePath fp) || isAbs (normalizePath fp)
      then _ else _) = _
    rw [if_neg (by rw [h2, h3]; simp)]

/-- Claim C10: command validation accepts every command whose leading token
merely starts with the four characters of echo, for any whitespace-free
suffix, with or without trailing arguments; for a nonempty suffix that token
is in neither the allowlist nor the denylist. -/
theorem C10_confirmed (sfx rest : Str)
    (hws : ∀ c ∈ sfx, isJsWs c = false) :
    isValidCommandE (("echo".data ++ sfx) ++ ' ' :: rest) = .ok true ∧
    isValidCommandE ("echo".data ++ sfx) = .ok true ∧
    (sfx ≠ [] → ("echo".data ++ sfx) ∉ allowedCommands ∧
      ("echo".data ++ sfx) ∉ blockedCommands) := by
  have htokne : ("echo".data ++ sfx) ≠ [] := by simp
  have htoknw : ∀ c ∈ "echo".data ++ sfx, isJsWs c = false := by
    intro c hc
    rcases List.mem_append.mp hc with hc1 | hc1
    · have hfour : ∀ c ∈ ("echo".data : Str), isJsWs c = false := by decide
      exact hfour c hc1
    · exact hws c hc1
  have hlead : leadsOf ("echo".data) ("echo".data ++ sfx) = true :=
    leadsOf_append_self _ _
  have hnb : ("echo".data ++ sfx) ∉ blockedCommands := by
    intro hmem
    have hno : ∀ x ∈ blockedCommands, leadsOf ("echo".data) x = false := by decide
    rw [hno _ hmem] at hlead
    exact Bool.noConfusion hlead
  have hcompute : ∀ cmd, (jsTrim cmd).takeWhile (fun c => c ≠ ' ') =
      "echo".data ++ sfx → isValidCommandE cmd = .ok true := by
    intro cmd hcn
    show (if (jsTrim cmd).takeWhile (fun c => c ≠ ' ') ∈ blockedCommands
      then _ else _) = _
    rw [hcn, if_neg hnb, hlead, Bool.or_true]
  refine ⟨hcompute _ (spaceTok_token_space _ rest htokne htoknw),
    hcompute _ (spaceTok_token_only _ htokne htoknw), fun hsne => ⟨?_, hnb⟩⟩
  intro hmem
  have honly : ∀ x ∈ allowedCommands, leadsOf ("echo".data) x = true →
      x = "echo".data := by decide
  have hx := honly _ hmem hlead
  have hlenx := congrArg List.length hx
  simp at hlenx
  exact hsne hlenx

theorem C10_witness :
    isValidCommandE ("echofoo bar".data) = .ok true ∧
    ("echofoo".data ∉ allowedCommands ∧ "echofoo".data ∉ blockedCommands) :=
  ⟨(C10_confirmed ("foo".data) ("bar".data) (by decide)).1,
   (C10_confirmed ("foo".data) ("bar".data) (by decide)).2.2 (by decide)⟩

theorem executeCommand_blocked {cmd : Str} (env : Env) (ctx : Option Str)
    (fs : FS) (hblk : wsFirstTok cmd ∈ blockedCommands) :
    (ExecuteCommand env ctx fs { command := some cmd }).1 = fs ∧
    (ExecuteCommand env ctx fs { command := some cmd }).2.success = false ∧
    (ExecuteCommand env ctx fs { command := some cmd }).2.error.isSome = true := by
  cases hv : isValidCommandE cmd with
  | error e => refine ⟨?_, ?_, ?_⟩ <;> simp [ExecuteCommand, hv]
  | ok b =>
    cases b with
    | false => refine ⟨?_, ?_, ?_⟩ <;> simp [ExecuteCommand, hv]
    | true => exact absurd hv (isValid_not_ok_of_blockedWs hblk)

theorem dispatchTool_exec (env : Env) (pid : Str) (fs : FS) (args : JsArgs) :
    dispatchTool env pid fs ("ExecuteCommand".data) args =
      ((ExecuteCommand env (some pid) fs args).1,
       .exec (ExecuteCommand env (some pid) fs args).2) := by
  show (if ("ExecuteCommand".data : Str) = "ExecuteCommand".data
    then _ else _) = _
  rw [if_pos rfl]

/-- Claim C2: for every command whose leading whitespace-delimited token is
in the denylist, validation rejects it whatever the trailing arguments, the
rejection surfaces as a tool result carrying success false and an error
message rather than an uncaught throw, and a build whose batch contains such
a call still completes with overall success and status 200. -/
theorem C2_confirmed (cmd : Str) (env : Env) (ctx : Option Str) (fs fs0 : FS)
    (o : BuildOracle) (prompt : Str) (msg : ModelMessage)
    (l1 l2 : List ToolCallJs)
    (hblk : wsFirstTok cmd ∈ blockedCommands)
    (hne : prompt ≠ []) (hlen : jsLen prompt ≤ 2000)
    (hmk : (mkdirRecE fs0 (getProjectPath env o.projectId)).2 = .ok ())
    (hmsg : o.modelResponse = .ok msg)
    (htc : msg.toolCalls = some (l1 ++
      { name := "ExecuteCommand".data,
        argsJSON := .ok { command := some cmd } } :: l2)) :
    (ExecuteCommand env ctx fs { command := some cmd }).2.success = false ∧
    (ExecuteCommand env ctx fs { command := some cmd }).2.error.isSome = true ∧
    (∃ A B r,
      (buildEndpoint env o fs0
        { userPrompt := some (.str prompt) }).1.executionResults =
        A ++ { tool := "ExecuteCommand".data,
               args := some { command := some cmd },
               result := ToolResult.exec r } :: B ∧
      r.success = false) ∧
    (buildEndpoint env o fs0 { userPrompt := some (.str prompt) }).1.success =
      true ∧
    (buildEndpoint env o fs0 { userPrompt := some (.str prompt) }).1.status =
      200 := by
  obtain ⟨hfs, hsucc, herr⟩ := executeCommand_blocked env ctx fs hblk
  refine ⟨hsucc, herr, ?_, ?_, ?_⟩
  · rw [buildEndpoint_run env o fs0 prompt msg hne hlen hmk hmsg]
    simp only [htc, Option.getD_some]
    rw [runCalls_append, runCalls_cons, runOneCall_ok_entries,
      dispatchTool_exec, List.cons_append]
    exact ⟨_, _, _, rfl,
      (executeCommand_blocked env (some o.projectId) _ hblk).2.1⟩
  · rw [buildEndpoint_run env o fs0 prompt msg hne hlen hmk hmsg]
  · rw [buildEndpoint_run env o fs0 prompt msg hne hlen hmk hmsg]

theorem C2_witness :
    wsFirstTok ("sudo rm -rf /x".data) ∈ blockedCommands ∧
    (ExecuteCommand demoEnv none demoFs
      { command := some ("sudo rm -rf /x".data) }).2.success = false :=
  ⟨by decide,
   (C2_confirmed ("sudo rm -rf /x".data) demoEnv none demoFs demoFs
     (demoOracle (some [{ name := "ExecuteCommand".data,
                          argsJSON := .ok { command := some ("sudo rm -rf /x".data) } }]))
     ("p".data)
     { content := none,
       toolCalls := some [{ name := "ExecuteCommand".data,
                            argsJSON := .ok { command := some ("sudo rm -rf /x".data) } }] }
     [] [] (by decide) (by decide) (by decide) (by decide) rfl rfl).1⟩

theorem dirnameP_ne_nil (p : Str) : dirnameP p ≠ [] := by
  cases p with
  | nil => simp [dirnameP]
  | cons c0 r =>
    simp only [dirnameP]
    split
    · split <;> simp
    · rename_i e hL
      split
      · simp
      · intro htake
        rcases List.take_eq_nil_iff.mp htake with he0 | hcore
        · subst he0
          have hmem := List.mem_of_getLast?_eq_some hL
          obtain ⟨ic, hicf, hic1⟩ := List.mem_map.mp hmem
          have hpred := (List.mem_filter.mp hicf).2
          rw [hic1] at hpred
          simp at hpred
        · rw [hcore] at hL
          simp at hL

theorem writeFile_eq (env : Env) (ctx : Option Str) (fs : FS)
    (cmdF : Option Str) (fp c : Str) :
    WriteFile env ctx fs { command := cmdF, path := some fp, content := some c } =
      (match toolFullPath env ctx fp with
       | .error e => (fs, { success := false, error := some e, path := some fp })
       | .ok fullPath =>
         if 1024 * 1024 < jsLen c then
           (fs, { success := false,
                  error := some ("File content too large (max 1MB)".data),
                  path := some fp })
         else
           match (if existsSync fs (dirnameP fullPath) then (fs, Except.ok ())
             else mkdirRecE fs (dirnameP fullPath)) with
           | (fs1, .error e) =>
             (fs1, { success := false, error := some e, path := some fp })
           | (fs1, .ok _) =>
             match writeFileSyncE fs1 fullPath c with
             | (fs2, .error e) =>
               (fs2, { success := false, error := some e, path := some fp })
             | (fs2, .ok _) =>
               (fs2, { success := true,
                       message := some ("Successfully written to ".data ++ fp),
                       path := some fp, fullPath := some fullPath,
                       size := some (jsLen c) })) := rfl

theorem writeFileSyncE_ok {fs : FS} {p c : Str}
    (hnd : fsLookup fs p ≠ some FsNode.dir)
    (hpar : ∀ cc, fsLookup fs (dirnameP p) ≠ some (FsNode.file cc)) :
    writeFileSyncE fs p c = (fsSet fs p (.file c), Except.ok ()) := by
  unfold writeFileSyncE
  cases hv : fsLookup fs p with
  | some n =>
    cases n with
    | dir => exact absurd hv hnd
    | file cc =>
      cases hp : fsLookup fs (dirnameP p) with
      | some m =>
        cases m with
        | file dd => exact absurd hp (hpar dd)
        | dir => rfl
      | none => rfl
  | none =>
    cases hp : fsLookup fs (dirnameP p) with
    | some m =>
      cases m with
      | file dd => exact absurd hp (hpar dd)
      | dir => rfl
    | none => rfl

theorem step_dir_exists (fs : FS) (d : Str) (hdne : d ≠ [])
    (hmkok : (if existsSync fs d then (fs, Except.ok ())
      else mkdirRecE fs d).2 = Except.ok ()) :
    existsSync (if existsSync fs d then (fs, Except.ok ())
      else mkdirRecE fs d).1 d = true := by
  by_cases hd : existsSync fs d = true
  · rw [if_pos hd]
    exact hd
  · rw [if_neg hd] at hmkok ⊢
    exact mkdirGo_ok_exists _ fs hmkok d (self_mem_ancestorChain hdne)

theorem writeFile_success (env : Env) (ctx : Option Str) (fs : FS)
    (fp full c : Str)
    (hfull : toolFullPath env ctx fp = .ok full)
    (hsz : ¬1024 * 1024 < jsLen c)
    (hmkok : (if existsSync fs (dirnameP full) then (fs, Except.ok ())
      else mkdirRecE fs (dirnameP full)).2 = Except.ok ())
    (hnotdir : fsLookup (if existsSync fs (dirnameP full) then (fs, Except.ok ())
      else mkdirRecE fs (dirnameP full)).1 full ≠ some FsNode.dir)
    (hparent : ∀ cc, fsLookup (if existsSync fs (dirnameP full)
      then (fs, Except.ok ()) else mkdirRecE fs (dirnameP full)).1
      (dirnameP full) ≠ some (FsNode.file cc)) :
    WriteFile env ctx fs { path := some fp, content := some c } =
      (fsSet (if existsSync fs (dirnameP full) then (fs, Except.ok ())
         else mkdirRecE fs (dirnameP full)).1 full (.file c),
       { success := true,
         message := some ("Successfully written to ".data ++ fp),
         path := some fp, fullPath := some full,
         size := some (jsLen c) }) := by
  rw [writeFile_eq, hfull]
  dsimp only
  rw [if_neg hsz]
  have hstep : (if existsSync fs (dirnameP full) then (fs, Except.ok ())
      else mkdirRecE fs (dirnameP full)) =
      ((if existsSync fs (dirnameP full) then (fs, Except.ok ())
        else mkdirRecE fs (dirnameP full)).1, Except.ok ()) :=
    Prod.ext rfl hmkok
  rw [hstep]
  dsimp only
  rw [writeFileSyncE_ok hnotdir hparent]

/-- Claim C4, counterexample.  The claim says the success result reports the
bytes-written count.  The code reports content.length, the JS string length:
for a one-character non-ASCII content the result size is 1 while
fs.writeFileSync writes its two-byte UTF-8 encoding. -/
theorem C4_counterexample :
    (WriteFile demoEnv (some ("w1".data)) demoFs
      { path := some ("a.txt".data), content := some ("é".data) }).2.success =
      true ∧
    (WriteFile demoEnv (some ("w1".data)) demoFs
      { path := some ("a.txt".data), content := some ("é".data) }).2.size =
      some 1 ∧
    utf8Len ("é".data) = 2 := by decide

/-- Claim C4 (amended): the ceiling and the reported size are measured in JS
string length (UTF-16 code units), not bytes: content of exactly the ceiling
succeeds — overwriting the target and creating any missing parent chain —
with the result reporting the character count, and content one unit over the
ceiling fails with the too-large error and leaves the filesystem unchanged. -/
theorem C4_corrected (env : Env) (ctx : Option Str) (fs : FS)
    (fp full c1 c2 : Str)
    (hfull : toolFullPath env ctx fp = .ok full)
    (hlen1 : jsLen c1 = 1024 * 1024)
    (hlen2 : jsLen c2 = 1024 * 1024 + 1)
    (hmkok : (if existsSync fs (dirnameP full) then (fs, Except.ok ())
      else mkdirRecE fs (dirnameP full)).2 = Except.ok ())
    (hnotdir : fsLookup (if existsSync fs (dirnameP full) then (fs, Except.ok ())
      else mkdirRecE fs (dirnameP full)).1 full ≠ some FsNode.dir)
    (hparent : ∀ cc, fsLookup (if existsSync fs (dirnameP full)
      then (fs, Except.ok ()) else mkdirRecE fs (dirnameP full)).1
      (dirnameP full) ≠ some (FsNode.file cc)) :
    ((WriteFile env ctx fs { path := some fp, content := some c1 }).2.success =
       true ∧
     (WriteFile env ctx fs { path := some fp, content := some c1 }).2.size =
       some (jsLen c1) ∧
     fsLookup (WriteFile env ctx fs { path := some fp, content := some c1 }).1
       full = some (.file c1) ∧
     existsSync (WriteFile env ctx fs { path := some fp, content := some c1 }).1
       (dirnameP full) = true) ∧
    ((WriteFile env ctx fs { path := some fp, content := some c2 }).2.success =
       false ∧
     (WriteFile env ctx fs { path := some fp, content := some c2 }).2.error =
       some ("File content too large (max 1MB)".data) ∧
     (WriteFile env ctx fs { path := some fp, content := some c2 }).1 = fs) := by
  have hw := writeFile_success env ctx fs fp full c1 hfull (by omega) hmkok
    hnotdir hparent
  constructor
  · rw [hw]
    refine ⟨rfl, rfl, ?_, ?_⟩
    · show fsLookup (fsSet _ full (.file c1)) full = some (.file c1)
      rw [fsLookup_fsSet, if_pos rfl]
    · exact existsSync_fsSet_of full (.file c1)
        (step_dir_exists fs (dirnameP full) (dirnameP_ne_nil full) hmkok)
  · rw [writeFile_eq, hfull]
    dsimp only
    rw [if_pos (by omega : 1024 * 1024 < jsLen c2)]
    exact ⟨rfl, rfl, rfl⟩

theorem jsLen_replicate_one (n : Nat) (c : Char) (h : c.toNat < 65536) :
    jsLen (List.replicate n c) = n := by
  induction n with
  | zero => rfl
  | succ k ih =>
    simp only [jsLen, List.replicate_succ, List.map_cons, List.sum_cons] at *
    rw [if_neg (by omega)]
    omega

theorem C4_witness :
    jsLen (List.replicate (1024 * 1024) 'a') = 1024 * 1024 ∧
    (WriteFile demoEnv (some ("w1".data)) demoFs
      { path := some ("a.txt".data),
        content := some (List.replicate (1024 * 1024) 'a') }).2.success = true ∧
    (WriteFile demoEnv (some ("w1".data)) demoFs
      { path := some ("a.txt".data),
        content := some (List.replicate (1024 * 1024 + 1) 'a') }).2.success =
      false :=
  ⟨jsLen_replicate_one (1024 * 1024) 'a' (by decide),
   (C4_corrected demoEnv (some ("w1".data)) demoFs ("a.txt".data)
     ("/app/websites/w1/a.txt".data) (List.replicate (1024 * 1024) 'a')
     (List.replicate (1024 * 1024 + 1) 'a') (by decide)
     (jsLen_replicate_one (1024 * 1024) 'a' (by decide))
     (jsLen_replicate_one (1024 * 1024 + 1) 'a' (by decide))
     (by decide) (by decide)
     (by
       intro cc h
       rw [show fsLookup (if existsSync demoFs
           (dirnameP ("/app/websites/w1/a.txt".data)) then (demoFs, Except.ok ())
           else mkdirRecE demoFs (dirnameP ("/app/websites/w1/a.txt".data))).1
           (dirnameP ("/app/websites/w1/a.txt".data)) = some FsNode.dir
         from by decide] at h
       exact FsNode.noConfusion (Option.some.inj h))).1.1,
   (C4_corrected demoEnv (some ("w1".data)) demoFs ("a.txt".data)
     ("/app/websites/w1/a.txt".data) (List.replicate (1024 * 1024) 'a')
     (List.replicate (1024 * 1024 + 1) 'a') (by decide)
     (jsLen_replicate_one (1024 * 1024) 'a' (by decide))
     (jsLen_replicate_one (1024 * 1024 + 1) 'a' (by decide))
     (by decide) (by decide)
     (by
       intro cc h
       rw [show fsLookup (if existsSync demoFs
           (dirnameP ("/app/websites/w1/a.txt".data)) then (demoFs, Except.ok ())
           else mkdirRecE demoFs (dirnameP ("/app/websites/w1/a.txt".data))).1
           (dirnameP ("/app/websites/w1/a.txt".data)) = some FsNode.dir
         from by decide] at h
       exact FsNode.noConfusion (Option.some.inj h))).2.1⟩

/-- Claim C5: none of the four executors lets an exception escape: for every
input — missing argument properties, invalid commands, rejected paths,
oversized content, missing files, non-directory paths, failing subprocesses —
each returns a structured result carrying a success flag, with the payload
fields set on success and an error message on failure. -/
theorem C5_confirmed (env : Env) (ctx : Option Str) (fs : FS) (args : JsArgs) :
    (((ExecuteCommand env ctx fs args).2.success = true ∧
        (ExecuteCommand env ctx fs args).2.output.isSome = true ∧
        (ExecuteCommand env ctx fs args).2.error = none) ∨
      ((ExecuteCommand env ctx fs args).2.success = false ∧
        (ExecuteCommand env ctx fs args).2.error.isSome = true ∧
        (ExecuteCommand env ctx fs args).2.output = none)) ∧
    (((WriteFile env ctx fs args).2.success = true ∧
        (WriteFile env ctx fs args).2.size.isSome = true ∧
        (WriteFile env ctx fs args).2.fullPath.isSome = true ∧
        (WriteFile env ctx fs args).2.error = none) ∨
      ((WriteFile env ctx fs args).2.success = false ∧
        (WriteFile env ctx fs args).2.error.isSome = true ∧
        (WriteFile env ctx fs args).2.size = none)) ∧
    (((ReadFile env ctx fs args).success = true ∧
        (ReadFile env ctx fs args).content.isSome = true ∧
        (ReadFile env ctx fs args).size.isSome = true ∧
        (ReadFile env ctx fs args).error = none) ∨
      ((ReadFile env ctx fs args).success = false ∧
        (ReadFile env ctx fs args).error.isSome = true ∧
        (ReadFile env ctx fs args).content = none)) ∧
    (((ListDirectory env ctx fs args).success = true ∧
        (ListDirectory env ctx fs args).files.isSome = true ∧
        (ListDirectory env ctx fs args).count.isSome = true ∧
        (ListDirectory env ctx fs args).error = none) ∨
      ((ListDirectory env ctx fs args).success = false ∧
        (ListDirectory env ctx fs args).error.isSome = true ∧
        (ListDirectory env ctx fs args).files = none)) := by
  obtain ⟨cmdF, pathF, contF⟩ := args
  refine ⟨?_, ?_, ?_, ?_⟩
  · cases cmdF with
    | none => simp [ExecuteCommand]
    | some cmd =>
      cases hv : isValidCommandE cmd with
      | error e => simp [ExecuteCommand, hv]
      | ok b =>
        cases b with
        | false => simp [ExecuteCommand, hv]
        | true =>
          cases ctx with
          | none =>
            rcases he : env.exec env.processCwd cmd fs with ⟨fs2, out⟩
            cases out with
            | ok o2 => simp [ExecuteCommand, hv, he]
            | error e2 => simp [ExecuteCommand, hv, he]
          | some pid =>
            rcases he : env.exec (getProjectPath env pid) cmd fs with ⟨fs2, out⟩
            cases out with
            | ok o2 => simp [ExecuteCommand, hv, he]
            | error e2 => simp [ExecuteCommand, hv, he]
  · cases pathF with
    | none => simp [WriteFile]
    | some fp =>
      cases ht : toolFullPath env ctx fp with
      | error e => cases contF <;> simp [WriteFile, ht]
      | ok full =>
        cases contF with
        | none => simp [WriteFile, ht]
        | some c =>
          rw [writeFile_eq, ht]
          dsimp only
          by_cases hsz : 1024 * 1024 < jsLen c
          · rw [if_pos hsz]
            simp
          · rw [if_neg hsz]
            rcases hstep : (if existsSync fs (dirnameP full)
              then (fs, Except.ok ()) else mkdirRecE fs (dirnameP full))
              with ⟨fs1, st⟩
            cases st with
            | error e => simp
            | ok u =>
              rcases hw : writeFileSyncE fs1 full c with ⟨fs2, wr⟩
              cases wr with
              | error e => simp [hw]
              | ok u2 => simp [hw]
  · cases pathF with
    | none => simp [ReadFile]
    | some fp =>
      cases ht : toolFullPath env ctx fp with
      | error e => simp [ReadFile, ht]
      | ok full =>
        by_cases hex : existsSync fs full = true
        · cases hv : fsLookup fs full with
          | none => simp [ReadFile, ht, hex, hv]
          | some n => cases n <;> simp [ReadFile, ht, hex, hv]
        · simp [ReadFile, ht, hex]
  · cases ht : toolFullPath env ctx (pathF.getD (".".data)) with
    | error e => simp [ListDirectory, ht]
    | ok full =>
      by_cases hex : existsSync fs full = true
      · cases hv : fsLookup fs full with
        | none => simp [ListDirectory, ht, hex, hv]
        | some n => cases n <;> simp [ListDirectory, ht, hex, hv]
      · simp [ListDirectory, ht, hex]

/-- Claim C6: the build endpoint answers 400 with success false and an error
message to every request whose userPrompt is missing, not a string, the empty
string, or longer than 2000 JS characters, and leaves the filesystem — hence
every project directory — untouched. -/
theorem C6_confirmed (env : Env) (o : BuildOracle) (fs : FS) (req : BuildRequest)
    (hbad : req.userPrompt = none ∨ req.userPrompt = some JsVal.other ∨
      ∃ s2, req.userPrompt = some (.str s2) ∧ (s2 = [] ∨ 2000 < jsLen s2)) :
    (buildEndpoint env o fs req).1.status = 400 ∧
    (buildEndpoint env o fs req).1.success = false ∧
    (buildEndpoint env o fs req).1.error.isSome = true ∧
    (buildEndpoint env o fs req).2 = fs := by
  obtain ⟨up⟩ := req
  rcases hbad with h | h | ⟨s2, h, hc⟩
  · simp only [] at h
    subst h
    exact ⟨rfl, rfl, rfl, rfl⟩
  · simp only [] at h
    subst h
    exact ⟨rfl, rfl, rfl, rfl⟩
  · simp only [] at h
    subst h
    by_cases hz : s2 = []
    · subst hz
      exact ⟨rfl, rfl, rfl, rfl⟩
    · rcases hc with rfl | hlong
      · exact ⟨rfl, rfl, rfl, rfl⟩
      · have hbe : buildEndpoint env o fs { userPrompt := some (.str s2) } =
            ({ status := 400, success := false,
               error := some ("Prompt too long (max 2000 characters)".data) },
             fs) := by
          show (if s2 = [] then _ else if 2000 < jsLen s2 then _ else _) = _
          rw [if_neg hz, if_pos hlong]
        rw [hbe]
        exact ⟨rfl, rfl, rfl, rfl⟩

theorem C6_witness :
    (buildEndpoint demoEnv (demoOracle none) demoFs
      { userPrompt := none }).1.status = 400 ∧
    (buildEndpoint demoEnv (demoOracle none) demoFs
      { userPrompt := none }).1.success = false ∧
    (buildEndpoint demoEnv (demoOracle none) demoFs
      { userPrompt := none }).1.error.isSome = true ∧
    (buildEndpoint demoEnv (demoOracle none) demoFs
      { userPrompt := none }).2 = demoFs :=
  C6_confirmed demoEnv (demoOracle none) demoFs { userPrompt := none }
    (Or.inl rfl)

/-- Claim C7: after all actions run the response carries a preview URL
exactly when index.html exists at the project root in the final filesystem,
hasIndexFile reports the same check, and a build whose model response
requests no actions (against a fresh project directory) still answers
success with hasIndexFile false and no preview URL. -/
theorem C7_confirmed (env : Env) (o : BuildOracle) (fs : FS)
    (prompt : Str) (msg : ModelMessage)
    (hne : prompt ≠ []) (hlen : jsLen prompt ≤ 2000)
    (hmk : (mkdirRecE fs (getProjectPath env o.projectId)).2 = .ok ())
    (hmsg : o.modelResponse = .ok msg) :
    ((buildEndpoint env o fs
        { userPrompt := some (.str prompt) }).1.previewUrl.isSome =
      existsSync (buildEndpoint env o fs { userPrompt := some (.str prompt) }).2
        (joinPath (getProjectPath env o.projectId) ("index.html".data))) ∧
    ((buildEndpoint env o fs { userPrompt := some (.str prompt) }).1.stats =
      some ⟨(msg.toolCalls.getD []).length,
        some (existsSync
          (buildEndpoint env o fs { userPrompt := some (.str prompt) }).2
          (joinPath (getProjectPath env o.projectId) ("index.html".data)))⟩) ∧
    ((buildEndpoint env o fs { userPrompt := some (.str prompt) }).1.success =
      true) ∧
    (msg.toolCalls.getD [] = [] →
      fsLookup fs (joinPath (getProjectPath env o.projectId)
        ("index.html".data)) = none →
      (joinPath (getProjectPath env o.projectId) ("index.html".data)) ∉
        ancestorChain (getProjectPath env o.projectId) →
      (buildEndpoint env o fs
        { userPrompt := some (.str prompt) }).1.previewUrl = none ∧
      (buildEndpoint env o fs { userPrompt := some (.str prompt) }).1.stats =
        some ⟨0, some false⟩) := by
  rw [buildEndpoint_run env o fs prompt msg hne hlen hmk hmsg]
  refine ⟨?_, rfl, rfl, ?_⟩
  · cases hx : existsSync (runCalls env o
        (mkdirRecE fs (getProjectPath env o.projectId)).1 0
        (msg.toolCalls.getD [])).1
      (joinPath (getProjectPath env o.projectId) ("index.html".data)) with
    | true => simp
    | false => simp
  · intro h0 hlk hnm
    rw [h0]
    have hfs1 : fsLookup (mkdirRecE fs (getProjectPath env o.projectId)).1
        (joinPath (getProjectPath env o.projectId) ("index.html".data)) =
        none := by
      rw [show (mkdirRecE fs (getProjectPath env o.projectId)).1 =
        (mkdirGo fs (ancestorChain (getProjectPath env o.projectId))).1
        from rfl]
      rw [mkdirGo_lookup_of_not_mem _ _ _ hnm]
      exact hlk
    have hex : existsSync (runCalls env o
        (mkdirRecE fs (getProjectPath env o.projectId)).1 0 []).1
        (joinPath (getProjectPath env o.projectId) ("index.html".data)) =
        false := by
      rw [show (runCalls env o
        (mkdirRecE fs (getProjectPath env o.projectId)).1 0 []).1 =
        (mkdirRecE fs (getProjectPath env o.projectId)).1 from rfl]
      rw [existsSync, hfs1]
      rfl
    constructor
    · show (if existsSync (runCalls env o
        (mkdirRecE fs (getProjectPath env o.projectId)).1 0 []).1
        (joinPath (getProjectPath env o.projectId) ("index.html".data)) = true
        then some ("http://localhost:5000/".data ++ o.projectId ++ "/".data)
        else none) = none
      rw [if_neg (by rw [hex]; simp)]
    · show some (⟨(List.length ([] : List ToolCallJs)),
        some (existsSync (runCalls env o
          (mkdirRecE fs (getProjectPath env o.projectId)).1 0 []).1
          (joinPath (getProjectPath env o.projectId) ("index.html".data)))⟩ :
        BuildStats) = some ⟨0, some false⟩
      rw [hex]
      rfl

theorem C7_witness :
    (buildEndpoint demoEnv (demoOracle none) demoFs
      { userPrompt := some (.str ("p".data)) }).1.success = true ∧
    (buildEndpoint demoEnv (demoOracle none) demoFs
      { userPrompt := some (.str ("p".data)) }).1.previewUrl = none ∧
    (buildEndpoint demoEnv (demoOracle none) demoFs
      { userPrompt := some (.str ("p".data)) }).1.stats = some ⟨0, some false⟩ :=
  ⟨(C7_confirmed demoEnv (demoOracle none) demoFs ("p".data)
      { content := none, toolCalls := none } (by decide) (by decide)
      (by decide) rfl).2.2.1,
   ((C7_confirmed demoEnv (demoOracle none) demoFs ("p".data)
      { content := none, toolCalls := none } (by decide) (by decide)
      (by decide) rfl).2.2.2 rfl (by decide) (by decide)).1,
   ((C7_confirmed demoEnv (demoOracle none) demoFs ("p".data)
      { content := none, toolCalls := none } (by decide) (by decide)
      (by decide) rfl).2.2.2 rfl (by decide) (by decide)).2⟩

/-- Claim C8: within one batch no single action failure aborts the loop:
whatever the per-call outcomes (parse failures, rejected commands, subprocess
or filesystem errors), every requested call contributes a recorded entry
carrying its tool name, in the order received, the response reports the full
batch length, and the build answers success. -/
theorem C8_confirmed (env : Env) (o : BuildOracle) (fs : FS)
    (prompt : Str) (msg : ModelMessage) (tcs : List ToolCallJs)
    (hne : prompt ≠ []) (hlen : jsLen prompt ≤ 2000)
    (hmk : (mkdirRecE fs (getProjectPath env o.projectId)).2 = .ok ())
    (hmsg : o.modelResponse = .ok msg)
    (htc : msg.toolCalls = some tcs) :
    List.Sublist (tcs.map (fun tc => tc.name))
      (((buildEndpoint env o fs
        { userPrompt := some (.str prompt) }).1.executionResults).map
        (fun e => e.tool)) ∧
    (buildEndpoint env o fs { userPrompt := some (.str prompt) }).1.success =
      true ∧
    ((buildEndpoint env o fs { userPrompt := some (.str prompt) }).1.stats.map
      (fun st => st.toolCallsExecuted)) = some tcs.length := by
  rw [buildEndpoint_run env o fs prompt msg hne hlen hmk hmsg]
  rw [htc, Option.getD_some]
  exact ⟨runCalls_names_sublist env o tcs _ 0, rfl, rfl⟩

theorem C8_witness :
    List.Sublist (["WriteFile".data, "ExecuteCommand".data])
      ((buildEndpoint demoEnv (demoOracle (some [demoParseFail, demoBlockedExec]))
        demoFs { userPrompt := some (.str ("p".data)) }).1.executionResults.map
        (fun e => e.tool)) :=
  (C8_confirmed demoEnv (demoOracle (some [demoParseFail, demoBlockedExec]))
    demoFs ("p".data)
    { content := none, toolCalls := some [demoParseFail, demoBlockedExec] }
    [demoParseFail, demoBlockedExec]
    (by decide) (by decide) (by decide) rfl rfl).1

theorem dispatchTool_unknown (env : Env) (pid : Str) (fs : FS) (name : Str)
    (args : JsArgs) (h1 : name ≠ "ExecuteCommand".data)
    (h2 : name ≠ "WriteFile".data) (h3 : name ≠ "ReadFile".data)
    (h4 : name ≠ "ListDirectory".data) :
    dispatchTool env pid fs name args =
      (fs, .plain ("Unknown tool: ".data ++ name)) := by
  unfold dispatchTool
  rw [if_neg h1, if_neg h2, if_neg h3, if_neg h4]

/-- Claim C9: a requested tool whose name is outside the four-action
catalogue is recorded as a failure entry carrying the unknown-tool message
and the parsed arguments, an argument string that fails JSON parsing is
recorded as a failure entry with null arguments, the loop continues with the
remaining calls, and the build still answers success with status 200. -/
theorem C9_confirmed (env : Env) (o : BuildOracle) (fs : FS)
    (prompt : Str) (msg : ModelMessage)
    (l1 l2 l3 : List ToolCallJs) (bn : Str) (bargs : JsArgs) (n2 e2 : Str)
    (hne : prompt ≠ []) (hlen : jsLen prompt ≤ 2000)
    (hmk : (mkdirRecE fs (getProjectPath env o.projectId)).2 = .ok ())
    (hmsg : o.modelResponse = .ok msg)
    (hbn1 : bn ≠ "ExecuteCommand".data) (hbn2 : bn ≠ "WriteFile".data)
    (hbn3 : bn ≠ "ReadFile".data) (hbn4 : bn ≠ "ListDirectory".data)
    (htc : msg.toolCalls = some (l1 ++ { name := bn, argsJSON := .ok bargs } ::
      (l2 ++ { name := n2, argsJSON := .error e2 } :: l3))) :
    (∃ A B, (buildEndpoint env o fs
        { userPrompt := some (.str prompt) }).1.executionResults =
      A ++ { tool := bn, args := some bargs,
             result := .plain ("Unknown tool: ".data ++ bn) } :: B) ∧
    (∃ A B, (buildEndpoint env o fs
        { userPrompt := some (.str prompt) }).1.executionResults =
      A ++ { tool := n2, args := none, result := .plain e2 } :: B ∧
      List.Sublist (l3.map (fun tc => tc.name)) (B.map (fun e => e.tool))) ∧
    (buildEndpoint env o fs { userPrompt := some (.str prompt) }).1.success =
      true ∧
    (buildEndpoint env o fs { userPrompt := some (.str prompt) }).1.status =
      200 := by
  rw [buildEndpoint_run env o fs prompt msg hne hlen hmk hmsg]
  rw [htc, Option.getD_some]
  refine ⟨?_, ?_, rfl, rfl⟩
  · rw [runCalls_append, runCalls_cons, runOneCall_ok_entries,
      dispatchTool_unknown env o.projectId _ bn bargs hbn1 hbn2 hbn3 hbn4,
      List.cons_append]
    exact ⟨_, _, rfl⟩
  · rw [show l1 ++ { name := bn, argsJSON := Except.ok bargs } ::
      (l2 ++ { name := n2, argsJSON := Except.error e2 } :: l3) =
      (l1 ++ { name := bn, argsJSON := Except.ok bargs } :: l2) ++
      { name := n2, argsJSON := Except.error e2 } :: l3 from by simp]
    rw [runCalls_append, runCalls_cons, runOneCall_parse_error]
    exact ⟨_, _, rfl, runCalls_names_sublist env o l3 _ _⟩

theorem C9_witness :
    (buildEndpoint demoEnv (demoOracle (some [demoUnknown, demoParseFail]))
      demoFs { userPrompt := some (.str ("p".data)) }).1.success = true ∧
    (buildEndpoint demoEnv (demoOracle (some [demoUnknown, demoParseFail]))
      demoFs { userPrompt := some (.str ("p".data)) }).1.status = 200 :=
  ⟨(C9_confirmed demoEnv (demoOracle (some [demoUnknown, demoParseFail]))
      demoFs ("p".data)
      { content := none, toolCalls := some [demoUnknown, demoParseFail] }
      [] [] [] ("Nuke".data) {} ("WriteFile".data) ("Unexpected token".data)
      (by decide) (by decide) (by decide) rfl (by decide) (by decide)
      (by decide) (by decide) rfl).2.2.1,
   (C9_confirmed demoEnv (demoOracle (some [demoUnknown, demoParseFail]))
      demoFs ("p".data)
      { content := none, toolCalls := some [demoUnknown, demoParseFail] }
      [] [] [] ("Nuke".data) {} ("WriteFile".data) ("Unexpected token".data)
      (by decide) (by decide) (by decide) rfl (by decide) (by decide)
      (by decide) (by decide) rfl).2.2.2⟩

end CursorPro
